import Mathlib

/-!
# steamstats: a verification development

Shallow embedding of `steamstats.go` (a periodic scraper of the Steam player-count
page) and theorems about its line-oriented extractor (`parseStats`), its midnight
computation (`nextDay`) and its driver loop (`main`).

## Modelling conventions

* A Go `string` / `[]byte` is a `List Char`, one `Char` per byte.  Every operation
  the program applies to strings (`strings.Index`, `strings.Contains`, slicing,
  `strings.Replace`, `strconv.Atoi`) works position by position, so statements
  proved for all `List Char` hold in particular for byte strings.
* `strings.Index` returns `Option Nat`; `none` stands for Go's `-1`.
* `strconv.Atoi` returns `Option Int`; `none` stands for `err != nil`.  Go's `int`
  is taken to be 64 bits wide.
* The loop of the extractor (`parseLine`, `scan`, `games`) works on the byte slices
  that the successive calls of `buf.ReadLine()` return before the first error.
  `readLines` computes these slices from the bytes of the body as `bufio.Reader`
  does with its buffer of 4096 bytes, so that a longer line arrives in several
  pieces (`isPrefix` is discarded by `parseStats`); `pageGames` and `pageScan` are
  the extractor on the bytes of the body.  `pageLines` are the lines of the page
  as the specification speaks of them.
* `time.Time` values are represented by their `Unix()` seconds; the zone offset
  returned by `t.Zone()` is a parameter.  `int64` arithmetic of `nextDay` is exact
  integer arithmetic with Go's truncating remainder (`Int.tmod`).
* `getFilePath` reads only the local date of its argument, so it takes that date
  (`LocalDate`); `t.Format` is modelled on the chunks `2006`, `01`, `02` of the layout.
* The `interval` flag is the string handed to `strconv.ParseInt(s, 10, 64)`.
-/

namespace SteamStats

/-! ## Constants of the source -/

/-- Source constant `daySeconds int64 = 3600 * 24`. -/
def daySeconds : Int := 3600 * 24

/-- Source constant `spanStart`. -/
def spanStart : List Char := "<span class=\"currentServers\">".toList

/-- Source constant `spanEnd`. -/
def spanEnd : List Char := "</span>".toList

/-- Source constant `nameStart`. -/
def nameStart : List Char := "<a class=\"gameLink\" href=\"".toList

/-- Source constant `nameEnd`. -/
def nameEnd : List Char := "</a>".toList

/-- The row marker: the literal tested by `strings.Contains` in `case 0`. -/
def rowStart : List Char := "<tr class=\"player_count_row\" style=\"".toList

/-- The href terminator: the literal searched for in `case 3`. -/
def hrefEnd : List Char := "\">".toList

/-! ## Go library functions used by the extractor -/

/-- Go `strings.Index(s, sub)`: the least `i` such that `sub` is a prefix of `s[i:]`,
`none` (Go: `-1`) when there is no such `i`. -/
def index : List Char → List Char → Option Nat
  | [], sub => if sub.isPrefixOf [] then some 0 else none
  | c :: t, sub =>
    if sub.isPrefixOf (c :: t) then some 0 else (index t sub).map (fun i => i + 1)

/-- Go `strings.Contains(s, sub)`, which is `strings.Index(s, sub) >= 0`. -/
def contains (s sub : List Char) : Bool := (index s sub).isSome

/-- Go slice expression `s[lo:hi]` for `lo ≤ hi ≤ len(s)`. -/
def slice (s : List Char) (lo hi : Nat) : List Char := (s.drop lo).take (hi - lo)

/-- Go `strings.Replace(s, ",", "", -1)`: every comma byte is removed. -/
def stripCommas (s : List Char) : List Char := s.filter (fun c => c != ',')

/-- A decimal digit byte (`ch - '0' ≤ 9` on unsigned bytes). -/
def isDigit (c : Char) : Bool := decide (48 ≤ c.toNat) && decide (c.toNat ≤ 57)

/-- The digit loop of `strconv.ParseUint(s, 10, 64)` without its range check:
`none` on an empty string or on a byte that is not a decimal digit. -/
def parseDigits (s : List Char) : Option Nat :=
  if s = [] then none
  else if s.all isDigit then some (s.foldl (fun n c => n * 10 + (c.toNat - 48)) 0)
  else none

/-- Go `strconv.Atoi(s)` on a 64-bit platform: an optional sign `+` or `-`, then at
least one decimal digit and nothing else; the value must fit `int`.
`none` stands for `err != nil` (syntax error or range error). -/
def atoi (s : List Char) : Option Int :=
  match s with
  | [] => none
  | c :: t =>
    let neg : Bool := c == '-'
    let ds : List Char := if c == '-' || c == '+' then t else s
    match parseDigits ds with
    | none => none
    | some un =>
      if neg then (if un ≤ 2 ^ 63 then some (-(un : Int)) else none)
      else (if un < 2 ^ 63 then some (un : Int) else none)

/-! ## Data model -/

/-- Source `type GameInfo struct`. -/
structure GameInfo where
  Name : List Char
  Url : List Char
  Current : Int
  Peak : Int
deriving DecidableEq, Repr

/-- Source `type Stats struct`. -/
structure Stats where
  Time : Int
  Games : List GameInfo
deriving DecidableEq, Repr

/-- The loop variables of `parseStats`: `state`, `gi` and `stats.Games`. -/
structure Scan where
  state : Nat
  gi : GameInfo
  games : List GameInfo
deriving DecidableEq, Repr

/-- The zero value of `GameInfo` (`var gi GameInfo`). -/
def GameInfo.zero : GameInfo := { Name := [], Url := [], Current := 0, Peak := 0 }

/-- The loop variables before the first line is read. -/
def Scan.init : Scan := { state := 0, gi := GameInfo.zero, games := [] }

/-! ## The extractor -/

/-- Body of `case 1, 2` once `spanStart` was found at `start0`: the field update. -/
def readNumber (state : Nat) (gi : GameInfo) (line : List Char) (start0 : Nat) : GameInfo :=
  let start := start0 + spanStart.length
  match index (line.drop start) spanEnd with
  | none => gi
  | some e =>
    match atoi (stripCommas (slice line start (start + e))) with
    | none => gi
    | some num => if state = 1 then { gi with Current := num } else { gi with Peak := num }

/-- Body of `case 3` once `nameStart` was found at `start0`: the field updates. -/
def readLink (gi : GameInfo) (line : List Char) (start0 : Nat) : GameInfo :=
  let start := start0 + nameStart.length
  match index (line.drop start) hrefEnd with
  | none => gi
  | some e =>
    let gi1 : GameInfo := { gi with Url := slice line start (start + e) }
    let start2 := start + (e + 2)
    match index (line.drop start2) nameEnd with
    | none => gi1
    | some e2 => { gi1 with Name := slice line start2 (start2 + e2) }

/-- One iteration of the `for` loop of `parseStats` on the line `line`:
the `switch state` statement. -/
def parseLine (p : Scan) (line : List Char) : Scan :=
  if p.state = 0 then
    if contains line rowStart then { p with state := p.state + 1 } else p
  else if p.state = 1 ∨ p.state = 2 then
    match index line spanStart with
    | none => p
    | some start0 =>
      { p with state := p.state + 1, gi := readNumber p.state p.gi line start0 }
  else if p.state = 3 then
    match index line nameStart with
    | none => p
    | some start0 =>
      let gi := readLink p.gi line start0
      { state := 0, gi := gi, games := p.games ++ [gi] }
  else p

/-- The `for` loop of `parseStats` continued from the loop variables `p`. -/
def scanFrom (p : Scan) (lines : List (List Char)) : Scan := lines.foldl parseLine p

/-- The `for` loop of `parseStats` over all lines read. -/
def scan (lines : List (List Char)) : Scan := scanFrom Scan.init lines

/-- The value `stats.Games` that `parseStats` serialises. -/
def games (lines : List (List Char)) : List GameInfo := (scan lines).games

/-- Source `parseStats`: the `Stats` value that is marshalled and written to `f`;
`now` is `time.Now().Unix()`. -/
def parseStats (now : Int) (lines : List (List Char)) : Stats :=
  { Time := now, Games := games lines }

/-- A marker whose first byte does not occur again inside it: two occurrences of
such a marker in a string never overlap. -/
def NoSelfOverlap (sub : List Char) : Prop := ∃ h r, sub = h :: r ∧ h ∉ r

/-! ## Scenario inputs of the specification -/

/-- Scenario S1 as written: row marker and current span on the first line, peak span
on the second, link on the third. -/
def linesS1 : List (List Char) :=
  ["<tr class=\"player_count_row\" style=\"...\"> ... <span class=\"currentServers\">1,234</span>".toList,
   "<span class=\"currentServers\">5,000</span>".toList,
   "<a class=\"gameLink\" href=\"/app/42/FooGame/\">Foo Game</a>".toList]

/-- The record that scenario S1 expects. -/
def fooGame : GameInfo :=
  { Name := "Foo Game".toList, Url := "/app/42/FooGame/".toList, Current := 1234, Peak := 5000 }

/-- Scenario S1 with the current span moved off the row-marker line. -/
def linesS1Split : List (List Char) :=
  ["<tr class=\"player_count_row\" style=\"...\"> ... ".toList,
   "<span class=\"currentServers\">1,234</span>".toList,
   "<span class=\"currentServers\">5,000</span>".toList,
   "<a class=\"gameLink\" href=\"/app/42/FooGame/\">Foo Game</a>".toList]

/-- Scenario S2 on four lines: the current span encloses `N/A`. -/
def linesS2 : List (List Char) :=
  ["<tr class=\"player_count_row\" style=\"...\">".toList,
   "<span class=\"currentServers\">N/A</span>".toList,
   "<span class=\"currentServers\">5,000</span>".toList,
   "<a class=\"gameLink\" href=\"/app/42/FooGame/\">Foo Game</a>".toList]

/-- A page of two rows: the clean row of S1, then a row whose current span encloses
`N/A`. -/
def linesTwoRows : List (List Char) :=
  linesS1Split ++
  ["<tr class=\"player_count_row\" style=\"...\">".toList,
   "<span class=\"currentServers\">N/A</span>".toList,
   "<span class=\"currentServers\">7,000</span>".toList,
   "<a class=\"gameLink\" href=\"/app/7/Bar/\">Bar</a>".toList]

/-- The first three lines of scenario S3: the machine reaches state 3. -/
def linesS3Head : List (List Char) :=
  ["<tr class=\"player_count_row\" style=\"...\">".toList,
   "<span class=\"currentServers\">1,234</span>".toList,
   "<span class=\"currentServers\">5,000</span>".toList]

/-- The link line of scenario S3 that lacks the href terminator. -/
def lineS3Bar : List Char := "<a class=\"gameLink\" href=\"/app/7/Bar".toList

/-- The complete link line of scenario S3. -/
def lineS3Baz : List Char := "<a class=\"gameLink\" href=\"/app/9/Baz/\">Baz</a>".toList

/-- A second row with an unparsable current span and a link that lacks `</a>`. -/
def linesSloppyRow : List (List Char) :=
  ["<tr class=\"player_count_row\" style=\"...\">".toList,
   "<span class=\"currentServers\">n/a</span>".toList,
   "<span class=\"currentServers\">9</span>".toList,
   "<a class=\"gameLink\" href=\"/app/9/Baz/\">Baz".toList]

/-! ## The scheduler -/

/-- Source `nextDay`: `t` is `t.Unix()`, `zoneOffset` the offset returned by
`t.Zone()`; `%` is Go's truncating remainder. -/
def nextDay (t zoneOffset : Int) : Int :=
  let secs := t + zoneOffset
  secs + (daySeconds - secs.tmod daySeconds) - zoneOffset

/-- The local calendar day of epoch second `t`, counted from the epoch:
`floor((t + zoneOffset) / 86400)`. -/
def localDay (zoneOffset t : Int) : Int := (t + zoneOffset) / daySeconds

/-! ## The driver -/

/-- What one iteration of the loop of `main` receives from outside. -/
structure Tick where
  /-- Result of `http.Get` and `ioutil.ReadAll`: the lines of the body, `none` when
  `err != nil`. -/
  resp : Option (List (List Char))
  /-- The `StatusCode` of the response when `err == nil`.  `http.Get` reports a
  response of any status, such as 404 or 500, with `err == nil`; `main` never reads
  the status. -/
  status : Nat
  /-- Whether `openFile` succeeds, should this iteration call it. -/
  openOk : Bool
  /-- Value of `time.Now().Unix()` inside `parseStats`. -/
  now : Int
  /-- Value of `(<-chNow).Unix()`: the second at which the timer fires. -/
  fired : Int

/-- One `f.Write` of a snapshot. -/
structure Append where
  /-- The file written to: the time from which its path was computed. -/
  file : Int
  /-- Value of `local.Unix()` in the iteration that wrote. -/
  tickLocal : Int
  /-- The snapshot written. -/
  stats : Stats
deriving DecidableEq, Repr

/-- The variables of `main` together with the writes performed so far. -/
structure Driver where
  /-- Value of `local.Unix()`. -/
  localT : Int
  /-- Value of `next.Unix()`: the cached next midnight. -/
  next : Int
  /-- Current path time: `filePath` is `getFilePath` of the time with this `Unix()`. -/
  pathTime : Int
  /-- The handle `f`: the path time of the open file, `none` when `openFile` failed. -/
  f : Option Int
  /-- All writes in the order they were made (the contents of the files). -/
  out : List Append
deriving DecidableEq, Repr

/-- The startup path of `main` when `openFile` succeeds: `start` is `time.Now().Unix()`. -/
def Driver.start (zoneOffset start : Int) : Driver :=
  { localT := start, next := nextDay start zoneOffset, pathTime := start,
    f := some start, out := [] }

/-- The rollover block of the loop: `if local.Unix() >= next.Unix() { ... }`. -/
def rollover (zoneOffset : Int) (d : Driver) (openOk : Bool) : Driver :=
  if d.localT ≥ d.next then
    { d with pathTime := d.localT, next := nextDay d.localT zoneOffset,
             f := if openOk then some d.localT else none }
  else d

/-- The call `parseStats(f, buf)`: the snapshot is written to the file of the handle;
a write through a nil handle fails and leaves every file as it is. -/
def writeStats (d : Driver) (now : Int) (lines : List (List Char)) : Driver :=
  match d.f with
  | none => d
  | some h =>
    { d with out := d.out ++ [{ file := h, tickLocal := d.localT, stats := parseStats now lines }] }

/-- One iteration of the `for` loop of `main`. -/
def tick (zoneOffset : Int) (d : Driver) (tk : Tick) : Driver :=
  match tk.resp with
  | none => { d with localT := tk.fired }
  | some lines =>
    { writeStats (rollover zoneOffset d tk.openOk) tk.now lines with localT := tk.fired }

/-- The loop of `main` run over the given iterations. -/
def runTicks (zoneOffset : Int) (d : Driver) (ticks : List Tick) : Driver :=
  ticks.foldl (tick zoneOffset) d

/-- What the loop of `main` maintains: the cached midnight is the `nextDay` of the path
time, the path time is not later than `local` and has non-negative local seconds, an
open handle is on the current path, and every write went to the file of the local day
of its iteration. -/
def DriverInv (zoneOffset : Int) (d : Driver) : Prop :=
  d.next = nextDay d.pathTime zoneOffset ∧ d.pathTime ≤ d.localT ∧
  0 ≤ d.pathTime + zoneOffset ∧ (∀ h, d.f = some h → h = d.pathTime) ∧
  ∀ w ∈ d.out, localDay zoneOffset w.file = localDay zoneOffset w.tickLocal

/-- First iteration of scenario S4: runs at startup, its timer fires at 00:30 local. -/
def tickS4a : Tick :=
  { resp := some linesS1Split, status := 200, openOk := true, now := 81001, fired := 84600 }

/-- Second iteration of scenario S4: runs at 00:30 local time. -/
def tickS4b : Tick :=
  { resp := some linesS1Split, status := 200, openOk := true, now := 84601, fired := 88200 }

/-- Scenario S4 in a zone one hour east of Greenwich, started at 23:30 local time
(`Unix()` 81000) with an interval of 3600 seconds; both fetches succeed. -/
def ticksS4 : List Tick := [tickS4a, tickS4b]

/-- The text that `case 1, 2` hands to `strconv.Atoi` on the line `line`: what the
first `spanStart` and the next `spanEnd` enclose, commas removed; `none` when the line
has no such span. -/
def spanText (line : List Char) : Option (List Char) :=
  match index line spanStart with
  | none => none
  | some start0 =>
    match index (line.drop (start0 + spanStart.length)) spanEnd with
    | none => none
    | some e =>
      some (stripCommas (slice line (start0 + spanStart.length)
        (start0 + spanStart.length + e)))

/-- A row whose spans enclose negative numbers. -/
def linesNegative : List (List Char) :=
  ["<tr class=\"player_count_row\" style=\"...\">".toList,
   "<span class=\"currentServers\">-5</span>".toList,
   "<span class=\"currentServers\">-7</span>".toList,
   "<a class=\"gameLink\" href=\"/app/42/FooGame/\">Foo Game</a>".toList]

/-- All counts held by the loop variables are non-negative. -/
def NonNeg (p : Scan) : Prop :=
  0 ≤ p.gi.Current ∧ 0 ≤ p.gi.Peak ∧ ∀ g ∈ p.games, 0 ≤ g.Current ∧ 0 ≤ g.Peak

/-! ## Inputs for the claims on intervening lines and on incomplete links -/

/-- A line of the page that carries none of the three markers. -/
def lineFiller : List Char := "<td class=\"filler\">&nbsp;</td>".toList

/-- A page of two rows whose second link line lacks `</a>`; its spans are clean. -/
def linesOpenAnchor : List (List Char) :=
  linesS1Split ++
  ["<tr class=\"player_count_row\" style=\"...\">".toList,
   "<span class=\"currentServers\">10</span>".toList,
   "<span class=\"currentServers\">20</span>".toList,
   "<a class=\"gameLink\" href=\"/app/7/Bar/\">Bar".toList]

/-- Number of lines that contain the marker `sub`. -/
def linesWith (sub : List Char) (lines : List (List Char)) : Nat :=
  lines.countP (fun l => contains l sub)

/-- A single row whose link line lacks `</a>`. -/
def linesOpenAnchorFirst : List (List Char) :=
  ["<tr class=\"player_count_row\" style=\"...\">".toList,
   "<span class=\"currentServers\">10</span>".toList,
   "<span class=\"currentServers\">20</span>".toList,
   "<a class=\"gameLink\" href=\"/app/7/Bar/\">Bar".toList]

/-- A line with two complete spans. -/
def lineTwoSpans : List Char :=
  "<span class=\"currentServers\">1,234</span> <span class=\"currentServers\">77</span>".toList

/-- A line with two complete links. -/
def lineTwoLinks : List Char :=
  "<a class=\"gameLink\" href=\"/app/1/A/\">A</a><a class=\"gameLink\" href=\"/app/2/B/\">B</a>".toList

/-! ## The interval flag -/

/-- Go `strconv.ParseInt(s, 10, bitSize)`: an optional sign `+` or `-`, then at least
one decimal digit and nothing else; the value must fit a signed integer of `bitSize`
bits.  `none` stands for `err != nil` (syntax error or range error). -/
def parseInt (s : List Char) (bitSize : Nat) : Option Int :=
  match s with
  | [] => none
  | c :: t =>
    let neg : Bool := c == '-'
    let ds : List Char := if c == '-' || c == '+' then t else s
    match parseDigits ds with
    | none => none
    | some un =>
      let cutoff : Nat := 2 ^ (bitSize - 1)
      if neg then (if un ≤ cutoff then some (-(un : Int)) else none)
      else (if un < cutoff then some (un : Int) else none)

/-- The variable `interval` of `main` after
`interval, err := strconv.ParseInt(*flagInterval, 10, 64); if err != nil { interval = 3600 }`. -/
def interval (flagInterval : List Char) : Int :=
  match parseInt flagInterval 64 with
  | some v => v
  | none => 3600

/-- The number that a string of decimal digits denotes. -/
def decimalValue (ds : List Char) : Nat :=
  Nat.ofDigits 10 (ds.reverse.map (fun c => c.toNat - 48))

/-- Specification-side reading of "`s` is a valid base-10 signed 64-bit integer of
value `v`": `s` is an optional sign `+` or `-` followed by one or more bytes `0`..`9`
(codes 48..57), `v` is the number these digits denote, negated under a `-`, and `v`
lies between `-2^63` and `2^63 - 1`. -/
def IsInt64Text (s : List Char) (v : Int) : Prop :=
  ∃ ds : List Char, ds ≠ [] ∧ (∀ c ∈ ds, 48 ≤ c.toNat ∧ c.toNat ≤ 57) ∧
    (((s = ds ∨ s = '+' :: ds) ∧ v = (decimalValue ds : Int)) ∨
      (s = '-' :: ds ∧ v = -(decimalValue ds : Int))) ∧
    -(2 : Int) ^ 63 ≤ v ∧ v < (2 : Int) ^ 63

/-- The argument of `time.After` in the loop of `main`:
`time.Duration(interval * 1e9)`, an `int64` product that wraps around. -/
def timerNanos (interval : Int) : Int :=
  (interval * 1000000000 + 2 ^ 63) % 2 ^ 64 - 2 ^ 63

/-! ## The file path -/

/-- The local date of a `time.Time` value, as `t.Date()` returns it: all that the layout
of `getFilePath` reads from `t`. -/
structure LocalDate where
  year : Int
  month : Nat
  day : Nat
deriving DecidableEq, Repr

/-- The byte of the decimal digit `d` (`'0' + d`). -/
def digitByte (d : Nat) : Char := Char.ofNat (48 + d)

/-- The decimal representation of a natural number, most significant digit first. -/
def decimal (n : Nat) : List Char :=
  if n = 0 then ['0'] else (Nat.digits 10 n).reverse.map digitByte

/-- Go `appendInt(b, x, width)` of package `time`: a `-` for a negative `x`, then
the decimal digits of its absolute value, padded with zeros on the left to `width`. -/
def appendInt (x : Int) (width : Nat) : List Char :=
  (if x < 0 then ['-'] else []) ++
    (List.replicate (width - (decimal x.natAbs).length) '0' ++ decimal x.natAbs)

/-- Go `t.Format(layout)` on the fragment of the layout language that `getFilePath`
uses: the chunk `2006` is the year padded to four digits, `01` the month and `02` the
day padded to two digits, and a byte that starts no chunk (such as `/` and `-`) stands
for itself. -/
def format (t : LocalDate) : List Char → List Char
  | '2' :: '0' :: '0' :: '6' :: rest => appendInt t.year 4 ++ format t rest
  | '0' :: '1' :: rest => appendInt (t.month : Int) 2 ++ format t rest
  | '0' :: '2' :: rest => appendInt (t.day : Int) 2 ++ format t rest
  | c :: rest => c :: format t rest
  | [] => []

/-- Source `getFilePath`. -/
def getFilePath (t : LocalDate) : List Char :=
  "stats/".toList ++ format t "2006/01/2006-01-02".toList ++ ".json".toList

/-- Specification-side `YYYY`: the four decimal digits of a year. -/
def fourDigits (n : Nat) : List Char :=
  [digitByte (n / 1000), digitByte (n / 100 % 10), digitByte (n / 10 % 10), digitByte (n % 10)]

/-- Specification-side `MM` and `DD`: two decimal digits, a leading zero included. -/
def twoDigits (n : Nat) : List Char := [digitByte (n / 10), digitByte (n % 10)]

/-! ## Numbers as the page writes them -/

/-- Insertion of a comma after every third digit of a digit string given least
significant digit first. -/
def groupThousands : List Char → List Char
  | a :: b :: c :: rest =>
    match rest with
    | [] => [a, b, c]
    | _ :: _ => a :: b :: c :: ',' :: groupThousands rest
  | l => l

/-- Specification-side `text(c)`: the number `c` written in decimal with a comma as
thousands separator. -/
def withCommas (c : Nat) : List Char := (groupThousands (decimal c).reverse).reverse

/-- The least count that does not fit a 64-bit `int`, as the page would write it. -/
def lineHugeCount : List Char :=
  "<span class=\"currentServers\">9,223,372,036,854,775,808</span>".toList

/-- The clean row of S1 with the current count `2^63`. -/
def linesHugeCount : List (List Char) :=
  ["<tr class=\"player_count_row\" style=\"...\">".toList,
   lineHugeCount,
   "<span class=\"currentServers\">5,000</span>".toList,
   "<a class=\"gameLink\" href=\"/app/42/FooGame/\">Foo Game</a>".toList]

/-! ## The line reader -/

/-- Go `bufio.defaultBufSize`: the size of the buffer of `bufio.NewReader`. -/
def defaultBufSize : Nat := 4096

/-- The end-of-line stripping of `ReadLine`: a `\r` right before the `\n` is dropped
with it. -/
def dropCR (seg : List Char) : List Char :=
  if seg.getLast? = some '\r' then seg.dropLast else seg

/-- One call of `buf.ReadLine()` on the unread bytes `data` of the body: the bytes
returned as `line` and the bytes left unread; `none` when the call returns `io.EOF`.
The result `isPrefix` is left out: `parseStats` discards it.
* A `\n` among the next `defaultBufSize` bytes ends the line; it is dropped, with a
  `\r` before it.
* Without such a `\n`, fewer than `defaultBufSize` unread bytes are returned all.
* Otherwise the buffer is full: its `defaultBufSize` bytes are returned, except for a
  last `\r`, which is left unread. -/
def readLine (data : List Char) : Option (List Char × List Char) :=
  if data = [] then none
  else
    let seg := (data.take defaultBufSize).takeWhile (fun c => c != '\n')
    if seg.length < (data.take defaultBufSize).length then
      some (dropCR seg, data.drop (seg.length + 1))
    else if data.length < defaultBufSize then some (data, [])
    else if (data.take defaultBufSize).getLast? = some '\r' then
      some ((data.take defaultBufSize).dropLast, data.drop (defaultBufSize - 1))
    else some (data.take defaultBufSize, data.drop defaultBufSize)

/-- The loop `for { data, _, err := buf.ReadLine(); if err != nil { break } ... }` run
for at most `fuel` calls: the byte slices it hands to the `switch`. -/
def readLinesFuel : Nat → List Char → List (List Char)
  | 0, _ => []
  | fuel + 1, data =>
    match readLine data with
    | none => []
    | some (line, rest) => line :: readLinesFuel fuel rest

/-- The byte slices that the calls of `buf.ReadLine()` return for the body `data`
before the first error.  Every call consumes at least one byte, so `data.length` calls
reach the end of the body (`readLinesFuel_stable`). -/
def readLines (data : List Char) : List (List Char) := readLinesFuel data.length data

/-- The games that `parseStats` extracts from the body `data`. -/
def pageGames (data : List Char) : List GameInfo := games (readLines data)

/-- The loop variables of `parseStats` after the body `data`. -/
def pageScan (data : List Char) : Scan := scan (readLines data)

/-- A `\r` right before a `\n` counts as part of the line end: it is removed. -/
def normalizeEol : List Char → List Char
  | [] => []
  | c :: rest =>
    if c = '\r' ∧ rest.head? = some '\n' then normalizeEol rest else c :: normalizeEol rest

/-- Cutting a text at every `\n`. -/
def splitLines : List Char → List (List Char)
  | [] => []
  | c :: rest =>
    if c = '\n' then [] :: splitLines rest
    else
      match splitLines rest with
      | [] => [[c]]
      | l :: ls => (c :: l) :: ls

/-- Specification-side lines of a page: the page is cut at every `\n`, and a `\r`
right before a `\n` belongs to the line end. -/
def pageLines (data : List Char) : List (List Char) := splitLines (normalizeEol data)

/-- Every line of the page, with its line end of up to two bytes, fits the buffer of
the reader. -/
def LinesFit (data : List Char) : Prop :=
  ∀ l ∈ pageLines data, l.length + 2 ≤ defaultBufSize

/-! ## Inputs for the claims on fetch failures -/

/-- Specification-side fetch failure (sections 6 and 7 of the specification): a network
error, or a response whose status is not 200. -/
def fetchFailed (tk : Tick) : Bool := tk.resp.isNone || tk.status != 200

/-- The driver of scenario S4 after its first iteration: `local` is 00:30 of the next
day, the path and the cached midnight are still those of the day of startup. -/
def driverS4 : Driver := runTicks 3600 (Driver.start 3600 81000) [tickS4a]

/-- An iteration whose request is answered with status 500 and an error page. -/
def tickStatus500 : Tick :=
  { resp := some ["<h1>500 Internal Server Error</h1>".toList], status := 500,
    openOk := true, now := 84601, fired := 88200 }

/-- An iteration whose request fails with a network error. -/
def tickNetworkError : Tick :=
  { resp := none, status := 0, openOk := true, now := 84601, fired := 88200 }

/-! ## Pages -/

instance (data : List Char) : Decidable (LinesFit data) :=
  inferInstanceAs (Decidable (∀ l ∈ pageLines data, l.length + 2 ≤ defaultBufSize))

/-- Scenario S1 with the row marker on a line of its own, as the bytes of a page. -/
def pageS1Split : List Char :=
  ("<tr class=\"player_count_row\" style=\"...\"> ... \n" ++
   "<span class=\"currentServers\">1,234</span>\n" ++
   "<span class=\"currentServers\">5,000</span>\n" ++
   "<a class=\"gameLink\" href=\"/app/42/FooGame/\">Foo Game</a>\n").toList

/-- Scenario S3 as the bytes of a page: the two spans, the link line without href
terminator, then the complete link line. -/
def pageS3 : List Char :=
  ("<tr class=\"player_count_row\" style=\"...\">\r\n" ++
   "<span class=\"currentServers\">1,234</span>\r\n" ++
   "<span class=\"currentServers\">5,000</span>\r\n" ++
   "<a class=\"gameLink\" href=\"/app/7/Bar\r\n" ++
   "<a class=\"gameLink\" href=\"/app/9/Baz/\">Baz</a>\r\n").toList

/-- A page whose second line carries two complete spans. -/
def pageTwoSpans : List Char :=
  ("<tr class=\"player_count_row\" style=\"...\">\n" ++
   "<span class=\"currentServers\">1,234</span> <span class=\"currentServers\">77</span>\n").toList

/-- A page whose fourth line carries two complete links. -/
def pageTwoLinks : List Char :=
  ("<tr class=\"player_count_row\" style=\"...\">\n" ++
   "<span class=\"currentServers\">1,234</span>\n" ++
   "<span class=\"currentServers\">5,000</span>\n" ++
   "<a class=\"gameLink\" href=\"/app/1/A/\">A</a><a class=\"gameLink\" href=\"/app/2/B/\">B</a>\n").toList

/-- A line with two link markers of which the first has no href terminator. -/
def lineOpenHrefThenLink : List Char :=
  "<a class=\"gameLink\" href=\"/app/1/A <a class=\"gameLink\" href=\"/app/2/B/\">B</a>".toList

/-! ## Pages with a line longer than the buffer of the reader -/

/-- The row-marker line of the scenarios. -/
def lineRow : List Char := "<tr class=\"player_count_row\" style=\"...\">".toList

/-- The current-span line of scenario S1. -/
def lineCurrent : List Char := "<span class=\"currentServers\">1,234</span>".toList

/-- The peak-span line of scenario S1. -/
def linePeak : List Char := "<span class=\"currentServers\">5,000</span>".toList

/-- The link line of scenario S1. -/
def lineLink : List Char :=
  "<a class=\"gameLink\" href=\"/app/42/FooGame/\">Foo Game</a>".toList

/-- Indentation of 4055 blanks: with a span of five bytes it fills the buffer. -/
def padding : List Char := List.replicate 4055 ' '

/-- The peak span of S1 behind the indentation: 4096 bytes. -/
def lineLongPeak : List Char := padding ++ spanStart ++ "5,000".toList ++ spanEnd

/-- A page of three lines whose third line, 4152 bytes long, holds the peak span and
the link. -/
def pageLongLine : List Char :=
  lineRow ++ '\n' :: (lineCurrent ++ '\n' :: (lineLongPeak ++ lineLink))

/-- The current span of S1 behind the indentation: 4096 bytes. -/
def lineLongCurrent : List Char := padding ++ spanStart ++ "1,234".toList ++ spanEnd

/-- A second complete span, enclosing 77. -/
def lineSpan77 : List Char := "<span class=\"currentServers\">77</span>".toList

/-- A page of two lines whose second line, 4134 bytes long, holds two complete spans. -/
def pageLongTwoSpans : List Char := lineRow ++ '\n' :: (lineLongCurrent ++ lineSpan77)

/-- A page whose fourth line has two link markers, the first without href
terminator. -/
def pageOpenHrefThenLink : List Char :=
  lineRow ++ '\n' :: (lineCurrent ++ '\n' :: (linePeak ++ '\n' :: lineOpenHrefThenLink))

/-- The link line of S1 with a name of 5000 bytes. -/
def lineLongName : List Char :=
  nameStart ++ "/app/42/FooGame/".toList ++ hrefEnd ++ List.replicate 5000 'x' ++ nameEnd

/-- The clean row of S1 with a name of 5000 bytes, as the bytes of a page of four
lines. -/
def pageLongName : List Char :=
  lineRow ++ '\n' :: (lineCurrent ++ '\n' :: (linePeak ++ '\n' :: lineLongName))

/-! # Theorems -/

/-! ## Facts about `strings.Index` -/

theorem index_nil_left (sub : List Char) :
    index [] sub = if sub.isPrefixOf [] then some 0 else none := by
  simp [index]

theorem index_cons (c : Char) (t sub : List Char) :
    index (c :: t) sub =
      if sub.isPrefixOf (c :: t) then some 0 else (index t sub).map (fun i => i + 1) := by
  simp [index]

theorem index_of_prefix (s sub : List Char) (h : sub <+: s) : index s sub = some 0 := by
  have h2 : sub.isPrefixOf s = true := List.isPrefixOf_iff_prefix.mpr h
  cases s with
  | nil => simp [index, h2]
  | cons c t => simp [index, h2]

theorem contains_cons_false {c : Char} {t sub : List Char}
    (h : contains (c :: t) sub = false) :
    ¬ sub <+: (c :: t) ∧ contains t sub = false := by
  unfold contains at h
  rw [index_cons] at h
  by_cases hp : sub.isPrefixOf (c :: t) = true
  · simp [hp] at h
  · simp only [hp] at h
    constructor
    · intro hpre; exact hp (List.isPrefixOf_iff_prefix.mpr hpre)
    · unfold contains
      cases hi : index t sub with
      | none => rfl
      | some i => simp [hi] at h

/-- No occurrence of a non-self-overlapping marker can start inside `a` and run
into a following occurrence of the marker. -/
theorem not_prefix_append_of_noSelfOverlap {sub : List Char} (hs : NoSelfOverlap sub)
    (x : Char) (a b : List Char) (hn : ¬ sub <+: (x :: a)) :
    ¬ sub <+: (x :: a) ++ (sub ++ b) := by
  obtain ⟨h, r, rfl, hr⟩ := hs
  intro hp
  have ha : (x :: a) <+: (x :: a) ++ ((h :: r) ++ b) := List.prefix_append _ _
  rcases List.prefix_or_prefix_of_prefix hp ha with h1 | h1
  · exact hn h1
  · obtain ⟨k, hk⟩ := h1
    obtain ⟨t, ht⟩ := hp
    -- hk : x :: a ++ k = h :: r ;  ht : h :: r ++ t = x :: a ++ (h :: r ++ b)
    have ht2 : k ++ t = (h :: r) ++ b := by
      have h4 : (x :: a) ++ (k ++ t) = (x :: a) ++ ((h :: r) ++ b) := by
        rw [← List.append_assoc, hk]; exact ht
      exact List.append_cancel_left h4
    cases k with
    | nil =>
      apply hn
      rw [← hk]; simp
    | cons k0 k1 =>
      have hk0 : k0 = h := by
        simp at ht2; exact ht2.1
      have hmem : h ∈ r := by
        have h3 : a ++ k0 :: k1 = r := by
          simp at hk; exact hk.2
        rw [← h3, hk0]; simp
      exact hr hmem

/-- First occurrence: when the text `a` in front of a non-self-overlapping marker does
not contain the marker, `strings.Index` finds the marker right after `a`. -/
theorem index_append_marker {sub : List Char} (hs : NoSelfOverlap sub)
    (a b : List Char) (ha : contains a sub = false) :
    index (a ++ (sub ++ b)) sub = some a.length := by
  induction a with
  | nil => simpa using index_of_prefix (sub ++ b) sub (List.prefix_append _ _)
  | cons x a ih =>
    obtain ⟨hn, hc⟩ := contains_cons_false ha
    have hnp := not_prefix_append_of_noSelfOverlap hs x a b hn
    have hnp2 : ¬ (sub.isPrefixOf (x :: (a ++ (sub ++ b))) = true) := by
      intro h; exact hnp (by simpa using List.isPrefixOf_iff_prefix.mp h)
    rw [List.cons_append, index_cons]
    simp only [hnp2]
    simp [ih hc]

theorem noSelfOverlap_spanStart : NoSelfOverlap spanStart := ⟨_, _, rfl, by decide⟩
theorem noSelfOverlap_spanEnd : NoSelfOverlap spanEnd := ⟨_, _, rfl, by decide⟩
theorem noSelfOverlap_nameStart : NoSelfOverlap nameStart := ⟨_, _, rfl, by decide⟩
theorem noSelfOverlap_nameEnd : NoSelfOverlap nameEnd := ⟨_, _, rfl, by decide⟩
theorem noSelfOverlap_hrefEnd : NoSelfOverlap hrefEnd := ⟨_, _, rfl, by decide⟩
theorem noSelfOverlap_rowStart : NoSelfOverlap rowStart := ⟨_, _, rfl, by decide⟩


theorem contains_false_of_head_not_mem (h : Char) (r s : List Char) (hs : h ∉ s) :
    contains s (h :: r) = false := by
  induction s with
  | nil => simp [contains, index, List.isPrefixOf]
  | cons x s ih =>
    have hx : h ≠ x := fun e => hs (by simp [e])
    have hs2 : h ∉ s := fun e => hs (by simp [e])
    have ih2 := ih hs2
    unfold contains at ih2 ⊢
    rw [index_cons]
    cases hi : index s (h :: r) with
    | none => simp [List.isPrefixOf, hx]
    | some i => simp [hi] at ih2

theorem drop_marker (a m rest : List Char) :
    (a ++ (m ++ rest)).drop (a.length + m.length) = rest := by
  rw [← List.append_assoc]
  have h : a.length + m.length = (a ++ m).length := by simp
  rw [h, List.drop_left]

theorem slice_marker (a m t rest : List Char) :
    slice (a ++ (m ++ (t ++ rest))) (a.length + m.length) (a.length + m.length + t.length) = t := by
  unfold slice
  rw [drop_marker]
  simp

/-! ## Facts about `strconv.Atoi` -/

theorem parseDigits_some {s : List Char} {n : Nat} (h : parseDigits s = some n) :
    ∀ ch ∈ s, isDigit ch = true := by
  unfold parseDigits at h
  by_cases h1 : s = []
  · simp [h1] at h
  · by_cases h2 : s.all isDigit = true
    · intro ch hch
      exact (List.all_eq_true.mp h2) ch hch
    · simp [h1, h2] at h

theorem atoi_some_chars {s : List Char} {v : Int} (h : atoi s = some v) :
    ∀ ch ∈ s, isDigit ch = true ∨ ch = '-' ∨ ch = '+' := by
  cases s with
  | nil => simp [atoi] at h
  | cons c t =>
    unfold atoi at h
    simp only at h
    split at h
    · exact absurd h (by simp)
    · rename_i un hd
      have hall := parseDigits_some hd
      intro ch hch
      by_cases hc : (c == '-' || c == '+') = true
      · simp only [hc, if_true] at hall
        rcases List.mem_cons.mp hch with e | e
        · right
          subst e
          simpa using hc
        · left; exact hall ch e
      · simp only [hc] at hall
        left; exact hall ch hch

/-- A span text that `strconv.Atoi` accepts after comma removal holds no `<`, hence
no `</span>`. -/
theorem contains_spanEnd_of_atoi {t : List Char} {v : Int}
    (h : atoi (stripCommas t) = some v) : contains t spanEnd = false := by
  apply contains_false_of_head_not_mem
  intro hm
  have hm2 : '<' ∈ stripCommas t := by
    unfold stripCommas
    exact List.mem_filter.mpr ⟨hm, by decide⟩
  rcases atoi_some_chars h '<' hm2 with h1 | h1 | h1
  · exact absurd h1 (by decide)
  · exact absurd h1 (by decide)
  · exact absurd h1 (by decide)

/-! ## Single steps of the extractor -/

theorem parseLine_row (p : Scan) (line : List Char) (hs : p.state = 0)
    (h : contains line rowStart = true) :
    parseLine p line = { p with state := 1 } := by
  simp [parseLine, hs, h]

theorem parseLine_seek (p : Scan) (line : List Char) (hs : p.state = 0)
    (h : contains line rowStart = false) :
    parseLine p line = p := by
  simp [parseLine, hs, h]

theorem readNumber_span (state : Nat) (gi : GameInfo) (a t b : List Char) (v : Int)
    (hv : atoi (stripCommas t) = some v) :
    readNumber state gi (a ++ (spanStart ++ (t ++ (spanEnd ++ b)))) a.length =
      if state = 1 then { gi with Current := v } else { gi with Peak := v } := by
  have hi : index (t ++ (spanEnd ++ b)) spanEnd = some t.length :=
    index_append_marker noSelfOverlap_spanEnd t b (contains_spanEnd_of_atoi hv)
  unfold readNumber
  simp only [drop_marker, hi, slice_marker, hv]

theorem parseLine_span (p : Scan) (a t b : List Char) (v : Int)
    (hs : p.state = 1 ∨ p.state = 2)
    (ha : contains a spanStart = false) (hv : atoi (stripCommas t) = some v) :
    parseLine p (a ++ (spanStart ++ (t ++ (spanEnd ++ b)))) =
      { p with state := p.state + 1,
               gi := if p.state = 1 then { p.gi with Current := v }
                     else { p.gi with Peak := v } } := by
  have hi := index_append_marker noSelfOverlap_spanStart a (t ++ (spanEnd ++ b)) ha
  have h0 : p.state ≠ 0 := by omega
  unfold parseLine
  simp only [h0, if_false, hs, if_true, hi, readNumber_span _ _ _ _ _ _ hv]

theorem readLink_link (gi : GameInfo) (a url name b : List Char)
    (hu : contains url hrefEnd = false) (hn : contains name nameEnd = false) :
    readLink gi (a ++ (nameStart ++ (url ++ (hrefEnd ++ (name ++ (nameEnd ++ b)))))) a.length =
      { gi with Url := url, Name := name } := by
  have hi1 : index (url ++ (hrefEnd ++ (name ++ (nameEnd ++ b)))) hrefEnd = some url.length :=
    index_append_marker noSelfOverlap_hrefEnd url _ hu
  have hi2 : index (name ++ (nameEnd ++ b)) nameEnd = some name.length :=
    index_append_marker noSelfOverlap_nameEnd name b hn
  have hd : (a ++ (nameStart ++ (url ++ (hrefEnd ++ (name ++ (nameEnd ++ b)))))).drop
      (a.length + nameStart.length + (url.length + 2)) = name ++ (nameEnd ++ b) := by
    have h2 : (2 : Nat) = hrefEnd.length := by decide
    rw [← Nat.add_assoc, h2]
    have e : a ++ (nameStart ++ (url ++ (hrefEnd ++ (name ++ (nameEnd ++ b))))) =
        (a ++ nameStart ++ url) ++ (hrefEnd ++ (name ++ (nameEnd ++ b))) := by
      simp [List.append_assoc]
    have l : a.length + nameStart.length + url.length = (a ++ nameStart ++ url).length := by
      simp [Nat.add_assoc]
    rw [e, l, drop_marker]
  have hsl : slice (a ++ (nameStart ++ (url ++ (hrefEnd ++ (name ++ (nameEnd ++ b))))))
      (a.length + nameStart.length + (url.length + 2))
      (a.length + nameStart.length + (url.length + 2) + name.length) = name := by
    unfold slice
    rw [hd]; simp
  unfold readLink
  simp only [drop_marker, hi1, slice_marker, hd, hi2, hsl]

theorem parseLine_link (p : Scan) (a url name b : List Char) (hs : p.state = 3)
    (ha : contains a nameStart = false)
    (hu : contains url hrefEnd = false) (hn : contains name nameEnd = false) :
    parseLine p (a ++ (nameStart ++ (url ++ (hrefEnd ++ (name ++ (nameEnd ++ b)))))) =
      { state := 0, gi := { p.gi with Url := url, Name := name },
        games := p.games ++ [{ p.gi with Url := url, Name := name }] } := by
  have hi := index_append_marker noSelfOverlap_nameStart a
    (url ++ (hrefEnd ++ (name ++ (nameEnd ++ b)))) ha
  unfold parseLine
  simp only [hs, hi, readLink_link _ _ _ _ _ hu hn]
  simp

/-- A well-formed row on four successive lines, scanned from state 0, appends exactly
the record of that row and returns to state 0. -/
theorem scanFrom_clean_row (q : Scan) (l0 a1 t1 b1 a2 t2 b2 a3 url name b3 : List Char)
    (c p : Int) (hs : q.state = 0)
    (h0 : contains l0 rowStart = true)
    (h1 : contains a1 spanStart = false) (hc : atoi (stripCommas t1) = some c)
    (h2 : contains a2 spanStart = false) (hp : atoi (stripCommas t2) = some p)
    (h3 : contains a3 nameStart = false)
    (hu : contains url hrefEnd = false) (hn : contains name nameEnd = false) :
    scanFrom q [l0, a1 ++ (spanStart ++ (t1 ++ (spanEnd ++ b1))),
                a2 ++ (spanStart ++ (t2 ++ (spanEnd ++ b2))),
                a3 ++ (nameStart ++ (url ++ (hrefEnd ++ (name ++ (nameEnd ++ b3)))))] =
      { state := 0, gi := { Name := name, Url := url, Current := c, Peak := p },
        games := q.games ++ [{ Name := name, Url := url, Current := c, Peak := p }] } := by
  simp only [scanFrom, List.foldl]
  rw [parseLine_row q l0 hs h0]
  rw [parseLine_span _ a1 t1 b1 c (Or.inl rfl) h1 hc]
  rw [parseLine_span _ a2 t2 b2 p (Or.inr rfl) h2 hp]
  rw [parseLine_link _ a3 url name b3 rfl h3 hu hn]
  simp

/-! ## C1: the clean row -/

/-- C1 (counterexample): on the three-line input of scenario S1, whose first line
carries both the row marker and the current span, the extractor produces no record at
all: the first line only moves the machine to state 1, `5,000` is read as `Current`,
and the link line is scanned in state 2. -/
theorem C1_shared_line_yields_no_record :
    games linesS1 = [] ∧ games linesS1 ≠ [fooGame] ∧
      scan linesS1 =
        { state := 2, gi := { Name := [], Url := [], Current := 5000, Peak := 0 },
          games := [] } := by
  decide

/-- When the row marker, the current span, the peak span and the link are handed to the
`switch` as four successive pieces, each marker being the first of its kind in its
piece, the games list is exactly the one record `{Name, Url, Current, Peak}`. -/
theorem games_clean_row (l0 a1 t1 b1 a2 t2 b2 a3 url name b3 : List Char)
    (c p : Int)
    (h0 : contains l0 rowStart = true)
    (h1 : contains a1 spanStart = false) (hc : atoi (stripCommas t1) = some c)
    (h2 : contains a2 spanStart = false) (hp : atoi (stripCommas t2) = some p)
    (h3 : contains a3 nameStart = false)
    (hu : contains url hrefEnd = false) (hn : contains name nameEnd = false) :
    games [l0, a1 ++ spanStart ++ t1 ++ spanEnd ++ b1,
           a2 ++ spanStart ++ t2 ++ spanEnd ++ b2,
           a3 ++ nameStart ++ url ++ hrefEnd ++ name ++ nameEnd ++ b3] =
      [{ Name := name, Url := url, Current := c, Peak := p }] := by
  have h := scanFrom_clean_row Scan.init l0 a1 t1 b1 a2 t2 b2 a3 url name b3 c p rfl
    h0 h1 hc h2 hp h3 hu hn
  simp only [games, scan, List.append_assoc]
  rw [h]
  rfl

/-! ## C2: an unparsable current number -/

/-- C2 (code defect, evaluated): on a single row whose current span encloses `N/A`
the record is appended with `Current = 0` and `Peak = 5000`, as scenario S2 expects;
but when the same kind of row follows another row, `gi` is not cleared at the row
marker and the record is appended with the previous row's `Current` (1234), not 0. -/
theorem C2_unparsable_current_keeps_previous_value :
    games linesS2 =
      [{ Name := "Foo Game".toList, Url := "/app/42/FooGame/".toList,
         Current := 0, Peak := 5000 }] ∧
    games linesTwoRows =
      [fooGame,
       { Name := "Bar".toList, Url := "/app/7/Bar/".toList, Current := 1234, Peak := 7000 }] := by
  decide

/-! ## C3: a link line without href terminator -/

theorem index_none_of_contains_false {s sub : List Char} (h : contains s sub = false) :
    index s sub = none := by
  unfold contains at h
  cases hi : index s sub with
  | none => rfl
  | some i => simp [hi] at h

/-- C3 (counterexample): in scenario S3 the line `<a class="gameLink" href="/app/7/Bar`
is not ignored: it appends the in-progress record (with empty `Url` and `Name`) and
returns the machine to state 0, and the later complete link line appends nothing. -/
theorem C3_unterminated_href_is_not_ignored :
    (scan linesS3Head).state = 3 ∧
    (scan (linesS3Head ++ [lineS3Bar])).state = 0 ∧
    games (linesS3Head ++ [lineS3Bar]) =
      [{ Name := [], Url := [], Current := 1234, Peak := 5000 }] ∧
    games (linesS3Head ++ [lineS3Bar, lineS3Baz]) =
      [{ Name := [], Url := [], Current := 1234, Peak := 5000 }] ∧
    games (linesS3Head ++ [lineS3Bar, lineS3Baz]) ≠
      [{ Name := "Baz".toList, Url := "/app/9/Baz/".toList, Current := 1234, Peak := 5000 }] := by
  decide

/-- In state 3, a piece whose first link marker is followed by no `">` appends exactly
one record, carrying the `Current` and `Peak` of the earlier spans, and returns the
machine to state 0; a following piece without row marker appends nothing. -/
theorem parseLine_unterminated_href (p : Scan) (a rest later : List Char)
    (hs : p.state = 3)
    (ha : contains a nameStart = false) (hr : contains rest hrefEnd = false)
    (hl : contains later rowStart = false) :
    (parseLine p (a ++ nameStart ++ rest)).state = 0 ∧
    (∃ g : GameInfo, (parseLine p (a ++ nameStart ++ rest)).games = p.games ++ [g] ∧
      g.Current = p.gi.Current ∧ g.Peak = p.gi.Peak) ∧
    parseLine (parseLine p (a ++ nameStart ++ rest)) later =
      parseLine p (a ++ nameStart ++ rest) := by
  have hi := index_append_marker noSelfOverlap_nameStart a rest ha
  have hn := index_none_of_contains_false hr
  have hstep : parseLine p (a ++ nameStart ++ rest) =
      { state := 0, gi := p.gi, games := p.games ++ [p.gi] } := by
    rw [List.append_assoc]
    unfold parseLine
    simp only [hs, hi]
    simp [readLink, drop_marker, hn]
  rw [hstep]
  refine ⟨rfl, ⟨p.gi, rfl, rfl, rfl⟩, ?_⟩
  exact parseLine_seek _ later rfl hl

/-! ## C4: a new row does not start from a fresh record -/

/-- C4 (code defect, evaluated): after the clean row of S1 the machine is back in
state 0, yet the games of the page continued by a second row differ from the games of
the two parts scanned separately: the second record inherits `Name` and `Current`
from the first row, because `gi` is declared once outside the loop and never
cleared. -/
theorem C4_fields_carry_over_between_rows :
    (scan linesS1Split).state = 0 ∧
    games linesSloppyRow =
      [{ Name := [], Url := "/app/9/Baz/".toList, Current := 0, Peak := 9 }] ∧
    games (linesS1Split ++ linesSloppyRow) =
      [fooGame,
       { Name := "Foo Game".toList, Url := "/app/9/Baz/".toList, Current := 1234, Peak := 9 }] ∧
    games (linesS1Split ++ linesSloppyRow) ≠ games linesS1Split ++ games linesSloppyRow := by
  decide

/-! ## C5, C6: the next local midnight -/

theorem tmod_day_of_nonneg (s : Int) (h : 0 ≤ s) : s.tmod 86400 = s % 86400 :=
  Int.tmod_eq_emod h (by decide)

theorem tmod_day_of_neg (s : Int) (h : s < 0) : s.tmod 86400 = -((-s) % 86400) := by
  have h1 : s.tmod 86400 = s - 86400 * s.tdiv 86400 := Int.tmod_def s 86400
  have h2 : (-s).tdiv 86400 = -(s.tdiv 86400) := Int.neg_tdiv s 86400
  have h3 : (-s).tdiv 86400 = (-s) / 86400 := Int.tdiv_eq_ediv (by omega) (by decide)
  omega

theorem nextDay_eq (t off : Int) :
    nextDay t off = t + (86400 - (t + off).tmod 86400) := by
  have hd : daySeconds = 86400 := by decide
  simp only [nextDay, hd]
  omega

/-- The truncating remainder by a day lies strictly between `-86400` and `86400`, is
a remainder of the division by 86400, and is non-negative on non-negative values. -/
theorem tmod_day_bounds (s : Int) :
    -86400 < s.tmod 86400 ∧ s.tmod 86400 < 86400 ∧ (s - s.tmod 86400) % 86400 = 0 ∧
      (0 ≤ s → s.tmod 86400 = s % 86400) ∧ (s % 86400 = 0 → s.tmod 86400 = 0) := by
  rcases Int.lt_or_le s 0 with h | h
  · rw [tmod_day_of_neg s h]
    omega
  · rw [tmod_day_of_nonneg s h]
    omega

/-- C6: for every epoch second `t` and every zone offset, `nextDay t` is later
than `t` (exact integer arithmetic, truncating remainder). -/
theorem C6_nextDay_gt (t zoneOffset : Int) : nextDay t zoneOffset > t := by
  rw [nextDay_eq]
  have h := tmod_day_bounds (t + zoneOffset)
  omega

/-- C5 (counterexample): one second before the epoch in a zone of offset 0 the local
midnight `0` is skipped: `nextDay (-1) = 86400`, which is `86401` seconds later. -/
theorem C5_nextDay_skips_midnight_before_epoch :
    nextDay (-1) 0 = 86400 ∧ ¬ (nextDay (-1) 0 - (-1) ≤ 86400) ∧
      ((-1 : Int) < 0 ∧ (0 : Int) < nextDay (-1) 0 ∧ ((0 : Int) + 0) % 86400 = 0) := by
  decide

/-- C5 (amended): for every epoch second `t` and zone offset, `nextDay t` is a local
midnight later than `t`, and equals `t + 86400` when `t` is itself a local midnight;
when the local seconds `t + zoneOffset` are not negative, it is the next one:
`nextDay t - t ≤ 86400`. -/
theorem C5_nextDay_next_local_midnight (t zoneOffset : Int) :
    (nextDay t zoneOffset + zoneOffset) % 86400 = 0 ∧
    nextDay t zoneOffset > t ∧
    ((t + zoneOffset) % 86400 = 0 → nextDay t zoneOffset = t + 86400) ∧
    (0 ≤ t + zoneOffset → nextDay t zoneOffset - t ≤ 86400) := by
  rw [nextDay_eq]
  have h := tmod_day_bounds (t + zoneOffset)
  refine ⟨by omega, by omega, ?_, ?_⟩
  · intro hm
    have := h.2.2.2.2 hm
    omega
  · intro hn
    have := h.2.2.2.1 hn
    omega

/-- Witness of C5 (amended): noon and midnight of the second day after the epoch in a
zone one hour east of Greenwich. -/
theorem C5_nextDay_next_local_midnight_witness :
    ((82800 + 3600 : Int) % 86400 = 0 ∧ nextDay 82800 3600 = 82800 + 86400) ∧
    ((0 : Int) ≤ 126000 + 3600 ∧ nextDay 126000 3600 - 126000 ≤ 86400) :=
  ⟨⟨by decide, (C5_nextDay_next_local_midnight 82800 3600).2.2.1 (by decide)⟩,
   ⟨by decide, (C5_nextDay_next_local_midnight 126000 3600).2.2.2 (by decide)⟩⟩

/-! ## C7, C10: the driver -/

/-- Between a time of non-negative local seconds and its `nextDay` lies one local day. -/
theorem localDay_eq_of_lt_nextDay (off t0 l : Int) (h0 : 0 ≤ t0 + off) (h1 : t0 ≤ l)
    (h2 : l < nextDay t0 off) : localDay off t0 = localDay off l := by
  have hd : daySeconds = 86400 := by decide
  rw [nextDay_eq, tmod_day_of_nonneg _ h0] at h2
  simp only [localDay, hd]
  omega

theorem tick_localT (off : Int) (d : Driver) (tk : Tick) :
    (tick off d tk).localT = tk.fired := by
  unfold tick
  cases tk.resp <;> rfl

theorem rollover_inv (off : Int) (d : Driver) (openOk : Bool) (h : DriverInv off d) :
    DriverInv off (rollover off d openOk) ∧
      (rollover off d openOk).localT = d.localT ∧
      localDay off (rollover off d openOk).pathTime = localDay off d.localT := by
  obtain ⟨hnext, hle, hpos, hf, hout⟩ := h
  unfold rollover
  by_cases hro : d.localT ≥ d.next
  · rw [if_pos hro]
    refine ⟨⟨rfl, Int.le_refl _, ?_, ?_, hout⟩, rfl, rfl⟩
    · show 0 ≤ d.localT + off
      omega
    · intro h hh
      cases openOk
      · exact absurd hh (by simp)
      · simpa using hh.symm
  · rw [if_neg hro]
    refine ⟨⟨hnext, hle, hpos, hf, hout⟩, rfl, ?_⟩
    exact localDay_eq_of_lt_nextDay off d.pathTime d.localT hpos hle (by omega)

theorem writeStats_inv (off : Int) (d : Driver) (now : Int) (lines : List (List Char))
    (h : DriverInv off d) (hday : localDay off d.pathTime = localDay off d.localT) :
    DriverInv off (writeStats d now lines) ∧ (writeStats d now lines).localT = d.localT := by
  obtain ⟨hnext, hle, hpos, hf, hout⟩ := h
  cases hfd : d.f with
  | none =>
    have e : writeStats d now lines = d := by simp [writeStats, hfd]
    rw [e]
    exact ⟨⟨hnext, hle, hpos, hf, hout⟩, rfl⟩
  | some h0 =>
    have e : writeStats d now lines =
        { d with out := d.out ++
            [{ file := h0, tickLocal := d.localT, stats := parseStats now lines }] } := by
      simp [writeStats, hfd]
    rw [e]
    refine ⟨⟨hnext, hle, hpos, hf, ?_⟩, rfl⟩
    intro w hw
    rcases List.mem_append.mp hw with hw | hw
    · exact hout w hw
    · have e2 : w = { file := h0, tickLocal := d.localT, stats := parseStats now lines } :=
        List.mem_singleton.mp hw
      rw [e2, hf h0 hfd]
      exact hday

theorem tick_inv (off : Int) (d : Driver) (tk : Tick) (h : DriverInv off d)
    (hfire : d.localT ≤ tk.fired) : DriverInv off (tick off d tk) := by
  unfold tick
  cases hr : tk.resp with
  | none =>
    obtain ⟨hnext, hle, hpos, hf, hout⟩ := h
    exact ⟨hnext, Int.le_trans hle hfire, hpos, hf, hout⟩
  | some lines =>
    obtain ⟨h1, hl1, hd1⟩ := rollover_inv off d tk.openOk h
    obtain ⟨h2, hl2⟩ := writeStats_inv off _ tk.now lines h1 (by rw [hd1, hl1])
    obtain ⟨hnext, hle, hpos, hf, hout⟩ := h2
    refine ⟨hnext, ?_, hpos, hf, hout⟩
    show (writeStats (rollover off d tk.openOk) tk.now lines).pathTime ≤ tk.fired
    rw [hl2, hl1] at hle
    exact Int.le_trans hle hfire

theorem runTicks_inv (off : Int) (ticks : List Tick) (d : Driver) (h : DriverInv off d)
    (hmono : List.Chain (fun a b => a ≤ b) d.localT (ticks.map Tick.fired)) :
    DriverInv off (runTicks off d ticks) := by
  induction ticks generalizing d with
  | nil => exact h
  | cons tk rest ih =>
    simp only [List.map_cons, List.chain_cons] at hmono
    have h1 := tick_inv off d tk h hmono.1
    have h2 := ih (tick off d tk) h1 (by rw [tick_localT]; exact hmono.2)
    simpa [runTicks] using h2

theorem runTicks_prefix_inv (off : Int) (pre : List Tick) (tk : Tick) (post : List Tick)
    (d : Driver) (h : DriverInv off d)
    (hmono : List.Chain (fun a b => a ≤ b) d.localT ((pre ++ tk :: post).map Tick.fired)) :
    DriverInv off (runTicks off d pre) := by
  induction pre generalizing d with
  | nil => exact h
  | cons x pre ih =>
    simp only [List.cons_append, List.map_cons, List.chain_cons] at hmono
    have h1 := tick_inv off d x h hmono.1
    have h2 := ih (tick off d x) h1 (by rw [tick_localT]; exact hmono.2)
    simpa [runTicks] using h2

theorem driverInv_start (off start : Int) (h0 : 0 ≤ start + off) :
    DriverInv off (Driver.start off start) :=
  ⟨rfl, Int.le_refl _, h0, fun h hh => by simpa [Driver.start] using hh.symm,
   fun w hw => by simp [Driver.start] at hw⟩

/-- Every write of the loop went to the file of the local day of its iteration. -/
theorem runTicks_out_day (off start : Int) (ticks : List Tick) (h0 : 0 ≤ start + off)
    (hmono : List.Chain (fun a b => a ≤ b) start (ticks.map Tick.fired)) :
    ∀ w ∈ (runTicks off (Driver.start off start) ticks).out,
      localDay off w.file = localDay off w.tickLocal :=
  (runTicks_inv off ticks (Driver.start off start) (driverInv_start off start h0) hmono).2.2.2.2

/-- C7: for a fixed zone offset, a startup time of non-negative local seconds and
nondecreasing timer times, at every iteration whose fetch succeeds the path time in
force after the rollover check lies on the local calendar day of that iteration's
`local`, and the handle written through, unless nil, is the file of that path. -/
theorem C7_write_goes_to_file_of_local_day (off start : Int) (pre : List Tick) (tk : Tick)
    (post : List Tick) (lines : List (List Char))
    (h0 : 0 ≤ start + off)
    (hmono : List.Chain (fun a b => a ≤ b) start ((pre ++ tk :: post).map Tick.fired))
    (hresp : tk.resp = some lines) :
    localDay off (rollover off (runTicks off (Driver.start off start) pre) tk.openOk).pathTime =
      localDay off (runTicks off (Driver.start off start) pre).localT ∧
    ((rollover off (runTicks off (Driver.start off start) pre) tk.openOk).f = none ∨
     (rollover off (runTicks off (Driver.start off start) pre) tk.openOk).f =
       some (rollover off (runTicks off (Driver.start off start) pre) tk.openOk).pathTime) ∧
    (tick off (runTicks off (Driver.start off start) pre) tk).out =
      (writeStats (rollover off (runTicks off (Driver.start off start) pre) tk.openOk)
        tk.now lines).out := by
  have hinv := runTicks_prefix_inv off pre tk post (Driver.start off start)
    (driverInv_start off start h0) hmono
  obtain ⟨h1, _, hd1⟩ := rollover_inv off _ tk.openOk hinv
  refine ⟨hd1, ?_, ?_⟩
  · cases hf : (rollover off (runTicks off (Driver.start off start) pre) tk.openOk).f with
    | none => exact Or.inl rfl
    | some h => exact Or.inr (by rw [h1.2.2.2.1 h hf])
  · simp [tick, hresp]

/-- Witness of C7: scenario S4.  The iteration at 23:30 writes to the file of day 0,
the one at 00:30 rolls over and writes to the file of day 1. -/
theorem C7_write_goes_to_file_of_local_day_witness :
    ((0 : Int) ≤ 81000 + 3600 ∧
     List.Chain (fun a b : Int => a ≤ b) 81000 (([tickS4a] ++ tickS4b :: []).map Tick.fired) ∧
     tickS4b.resp = some linesS1Split) ∧
    (localDay 3600 (rollover 3600 (runTicks 3600 (Driver.start 3600 81000) [tickS4a])
        tickS4b.openOk).pathTime =
      localDay 3600 (runTicks 3600 (Driver.start 3600 81000) [tickS4a]).localT ∧
     ((rollover 3600 (runTicks 3600 (Driver.start 3600 81000) [tickS4a]) tickS4b.openOk).f = none ∨
      (rollover 3600 (runTicks 3600 (Driver.start 3600 81000) [tickS4a]) tickS4b.openOk).f =
        some (rollover 3600 (runTicks 3600 (Driver.start 3600 81000) [tickS4a])
          tickS4b.openOk).pathTime) ∧
     (tick 3600 (runTicks 3600 (Driver.start 3600 81000) [tickS4a]) tickS4b).out =
       (writeStats (rollover 3600 (runTicks 3600 (Driver.start 3600 81000) [tickS4a])
         tickS4b.openOk) tickS4b.now linesS1Split).out) ∧
    (runTicks 3600 (Driver.start 3600 81000) ticksS4).out.map
        (fun w => (w.tickLocal, w.file, localDay 3600 w.file)) =
      [(81000, 81000, 0), (84600, 84600, 1)] :=
  ⟨⟨by decide, by simp [tickS4a, tickS4b], rfl⟩,
   C7_write_goes_to_file_of_local_day 3600 81000 [tickS4a] tickS4b [] linesS1Split
     (by decide) (by simp [tickS4a, tickS4b]) rfl,
   by decide⟩

/-! ## C9: the games list only grows -/

theorem scanFrom_append (p : Scan) (l1 l2 : List (List Char)) :
    scanFrom p (l1 ++ l2) = scanFrom (scanFrom p l1) l2 := by
  simp [scanFrom, List.foldl_append]

theorem parseLine_games_prefix (p : Scan) (line : List Char) :
    p.games <+: (parseLine p line).games := by
  unfold parseLine
  split
  · split
    · exact List.prefix_refl _
    · exact List.prefix_refl _
  · split
    · split
      · exact List.prefix_refl _
      · exact List.prefix_refl _
    · split
      · split
        · exact List.prefix_refl _
        · exact List.prefix_append _ _
      · exact List.prefix_refl _

theorem scanFrom_games_prefix (lines : List (List Char)) (p : Scan) :
    p.games <+: (scanFrom p lines).games := by
  induction lines generalizing p with
  | nil => exact List.prefix_refl _
  | cons l rest ih =>
    have h1 := parseLine_games_prefix p l
    have h2 := ih (parseLine p l)
    exact List.IsPrefix.trans h1 (by simpa [scanFrom] using h2)

/-- C9: the games list is append-only: the games of a page are a prefix of the games
of every continuation of the page. -/
theorem C9_games_prefix_of_continuation (l1 l2 : List (List Char)) :
    games l1 <+: games (l1 ++ l2) := by
  unfold games scan
  rw [scanFrom_append]
  exact scanFrom_games_prefix l2 _

/-! ## C8: signs of the counts -/

theorem atoi_nonneg {s : List Char} {v : Int} (h : atoi s = some v)
    (hs : s.head? ≠ some '-') : 0 ≤ v := by
  cases s with
  | nil => simp [atoi] at h
  | cons c t =>
    have hc : (c == '-') = false := by
      simp only [List.head?_cons, ne_eq, Option.some.injEq] at hs
      simpa using hs
    unfold atoi at h
    simp only [hc] at h
    split at h
    · exact absurd h (by simp)
    · rename_i un _
      simp only [Bool.false_eq_true, if_false] at h
      split at h
      · have e : (un : Int) = v := by simpa using h
        rw [← e]
        exact Int.ofNat_nonneg un
      · exact absurd h (by simp)

theorem readNumber_nonneg (state : Nat) (gi : GameInfo) (line : List Char) (start0 : Nat)
    (hi : index line spanStart = some start0)
    (ht : (spanText line).bind List.head? ≠ some '-')
    (hc : 0 ≤ gi.Current) (hp : 0 ≤ gi.Peak) :
    0 ≤ (readNumber state gi line start0).Current ∧
      0 ≤ (readNumber state gi line start0).Peak := by
  unfold readNumber
  simp only
  cases he : index (line.drop (start0 + spanStart.length)) spanEnd with
  | none => exact ⟨hc, hp⟩
  | some e =>
    simp only
    cases ha : atoi (stripCommas (slice line (start0 + spanStart.length)
        (start0 + spanStart.length + e))) with
    | none => exact ⟨hc, hp⟩
    | some num =>
      have hst : spanText line = some (stripCommas (slice line (start0 + spanStart.length)
          (start0 + spanStart.length + e))) := by
        simp [spanText, hi, he]
      rw [hst] at ht
      have hn : 0 ≤ num := atoi_nonneg ha ht
      simp only
      split
      · exact ⟨hn, hp⟩
      · exact ⟨hc, hn⟩

theorem readLink_counts (gi : GameInfo) (line : List Char) (start0 : Nat) :
    (readLink gi line start0).Current = gi.Current ∧
      (readLink gi line start0).Peak = gi.Peak := by
  unfold readLink
  simp only
  split
  · exact ⟨rfl, rfl⟩
  · split
    · exact ⟨rfl, rfl⟩
    · exact ⟨rfl, rfl⟩

theorem parseLine_nonNeg (p : Scan) (line : List Char)
    (ht : (spanText line).bind List.head? ≠ some '-') (h : NonNeg p) :
    NonNeg (parseLine p line) := by
  obtain ⟨hc, hp, hg⟩ := h
  unfold parseLine
  split
  · split
    · exact ⟨hc, hp, hg⟩
    · exact ⟨hc, hp, hg⟩
  · split
    · split
      · exact ⟨hc, hp, hg⟩
      · rename_i start0 hi
        have hr := readNumber_nonneg p.state p.gi line start0 hi ht hc hp
        exact ⟨hr.1, hr.2, hg⟩
    · split
      · split
        · exact ⟨hc, hp, hg⟩
        · rename_i start0 hi
          have hr := readLink_counts p.gi line start0
          have h1 : 0 ≤ (readLink p.gi line start0).Current := by rw [hr.1]; exact hc
          have h2 : 0 ≤ (readLink p.gi line start0).Peak := by rw [hr.2]; exact hp
          refine ⟨h1, h2, ?_⟩
          intro g hgm
          rcases List.mem_append.mp hgm with hgm | hgm
          · exact hg g hgm
          · rw [List.mem_singleton.mp hgm]
            exact ⟨h1, h2⟩
      · exact ⟨hc, hp, hg⟩

theorem scanFrom_nonNeg (lines : List (List Char)) (p : Scan)
    (ht : ∀ l ∈ lines, (spanText l).bind List.head? ≠ some '-') (h : NonNeg p) :
    NonNeg (scanFrom p lines) := by
  induction lines generalizing p with
  | nil => exact h
  | cons l rest ih =>
    have h1 := parseLine_nonNeg p l (ht l (by simp)) h
    have h2 := ih (parseLine p l) (fun l2 hl2 => ht l2 (by simp [hl2])) h1
    simpa [scanFrom] using h2

/-- C8 (counterexample): a row whose spans enclose `-5` and `-7` yields a record with
`Current = -5` and `Peak = -7`. -/
theorem C8_negative_counts_are_stored :
    games linesNegative =
      [{ Name := "Foo Game".toList, Url := "/app/42/FooGame/".toList,
         Current := -5, Peak := -7 }] ∧
    ¬ (∀ g ∈ games linesNegative, 0 ≤ g.Current ∧ 0 ≤ g.Peak) := by
  decide

/-- When in no piece the span text handed to the integer parser begins with a minus
sign, every record of the games list has `Current ≥ 0` and `Peak ≥ 0`. -/
theorem games_nonneg_without_minus (lines : List (List Char))
    (ht : ∀ l ∈ lines, (spanText l).bind List.head? ≠ some '-')
    (g : GameInfo) (hg : g ∈ games lines) : 0 ≤ g.Current ∧ 0 ≤ g.Peak :=
  (scanFrom_nonNeg lines Scan.init ht
    ⟨Int.le_refl 0, Int.le_refl 0, fun g hg => by simp [Scan.init] at hg⟩).2.2 g hg

/-! ## The embedding of `strings.Index` meets its documentation -/

/-- When `index` returns `i`, the marker occurs at byte `i` and at no earlier byte. -/
theorem index_some_spec (sub : List Char) :
    ∀ (s : List Char) (i : Nat), index s sub = some i →
      sub <+: s.drop i ∧ i ≤ s.length ∧ ∀ j, j < i → ¬ sub <+: s.drop j := by
  intro s
  induction s with
  | nil =>
    intro i h
    rw [index_nil_left] at h
    by_cases hp : sub.isPrefixOf [] = true
    · rw [if_pos hp] at h
      have e : i = 0 := by simpa using h.symm
      subst e
      exact ⟨List.isPrefixOf_iff_prefix.mp hp, Nat.le_refl _, fun j hj => absurd hj (by omega)⟩
    · rw [if_neg hp] at h
      exact absurd h (by simp)
  | cons c t ih =>
    intro i h
    rw [index_cons] at h
    by_cases hp : sub.isPrefixOf (c :: t) = true
    · rw [if_pos hp] at h
      have e : i = 0 := by simpa using h.symm
      subst e
      exact ⟨List.isPrefixOf_iff_prefix.mp hp, Nat.zero_le _, fun j hj => absurd hj (by omega)⟩
    · rw [if_neg hp] at h
      cases hi : index t sub with
      | none => rw [hi] at h; exact absurd h (by simp)
      | some k =>
        rw [hi] at h
        have e : i = k + 1 := by simpa using h.symm
        subst e
        obtain ⟨h1, h2, h3⟩ := ih k hi
        refine ⟨by simpa using h1, by simpa using h2, ?_⟩
        intro j hj
        cases j with
        | zero =>
          intro hpre
          exact hp (List.isPrefixOf_iff_prefix.mpr (by simpa using hpre))
        | succ j =>
          have := h3 j (by omega)
          simpa using this

/-- When `index` returns `none` (Go: `-1`), the marker occurs nowhere. -/
theorem index_none_spec (sub : List Char) :
    ∀ (s : List Char), index s sub = none → ∀ j, ¬ sub <+: s.drop j := by
  intro s
  induction s with
  | nil =>
    intro h j
    rw [index_nil_left] at h
    by_cases hp : sub.isPrefixOf [] = true
    · rw [if_pos hp] at h
      exact absurd h (by simp)
    · intro hpre
      exact hp (List.isPrefixOf_iff_prefix.mpr (by simpa using hpre))
  | cons c t ih =>
    intro h j
    rw [index_cons] at h
    by_cases hp : sub.isPrefixOf (c :: t) = true
    · rw [if_pos hp] at h
      exact absurd h (by simp)
    · rw [if_neg hp] at h
      have hi : index t sub = none := by
        cases hi : index t sub with
        | none => rfl
        | some k => rw [hi] at h; exact absurd h (by simp)
      cases j with
      | zero =>
        intro hpre
        exact hp (List.isPrefixOf_iff_prefix.mpr (by simpa using hpre))
      | succ j =>
        have := ih hi j
        simpa using this

/-! ## The embedding of `strconv.Atoi` on sample inputs -/

/-- Values of `atoi` on the kinds of text `strconv.Atoi` distinguishes: digits, signs,
the bounds of a 64-bit `int`, and texts it rejects. -/
theorem atoi_samples :
    atoi "1234".toList = some 1234 ∧ atoi "-5".toList = some (-5) ∧
    atoi "+7".toList = some 7 ∧ atoi "007".toList = some 7 ∧
    atoi "".toList = none ∧ atoi "-".toList = none ∧ atoi "N/A".toList = none ∧
    atoi "1,234".toList = none ∧ atoi " 1".toList = none ∧ atoi "1_000".toList = none ∧
    atoi "9223372036854775807".toList = some 9223372036854775807 ∧
    atoi "9223372036854775808".toList = none ∧
    atoi "-9223372036854775808".toList = some (-9223372036854775808) ∧
    atoi "-9223372036854775809".toList = none := by
  decide

/-! ## C14: lines without marker -/

theorem parseLine_no_marker (p : Scan) (line : List Char)
    (hr : contains line rowStart = false) (hs : contains line spanStart = false)
    (hn : contains line nameStart = false) : parseLine p line = p := by
  have hs2 := index_none_of_contains_false hs
  have hn2 := index_none_of_contains_false hn
  unfold parseLine
  simp only [hr, hs2, hn2]
  split
  · simp
  · split
    · rfl
    · split <;> rfl

/-- C14: a line that contains none of the three markers, inserted at any position of
any line list, leaves the games list and the final loop variables (state and record in
progress) unchanged. -/
theorem C14_line_without_marker_is_ignored (l1 l2 : List (List Char)) (line : List Char)
    (hr : contains line rowStart = false) (hs : contains line spanStart = false)
    (hn : contains line nameStart = false) :
    scan (l1 ++ line :: l2) = scan (l1 ++ l2) ∧
      games (l1 ++ line :: l2) = games (l1 ++ l2) ∧
      (scan (l1 ++ line :: l2)).state = (scan (l1 ++ l2)).state := by
  have h : scan (l1 ++ line :: l2) = scan (l1 ++ l2) := by
    unfold scan
    rw [scanFrom_append, scanFrom_append]
    show scanFrom (parseLine (scanFrom Scan.init l1) line) l2 = _
    rw [parseLine_no_marker _ line hr hs hn]
  exact ⟨h, by unfold games; rw [h], by rw [h]⟩

/-- Witness of C14: a filler cell inserted between the two spans of the clean row. -/
theorem C14_line_without_marker_is_ignored_witness :
    (contains lineFiller rowStart = false ∧ contains lineFiller spanStart = false ∧
      contains lineFiller nameStart = false) ∧
    (scan (linesS1Split.take 2 ++ lineFiller :: linesS1Split.drop 2) =
        scan (linesS1Split.take 2 ++ linesS1Split.drop 2) ∧
      games (linesS1Split.take 2 ++ lineFiller :: linesS1Split.drop 2) =
        games (linesS1Split.take 2 ++ linesS1Split.drop 2) ∧
      (scan (linesS1Split.take 2 ++ lineFiller :: linesS1Split.drop 2)).state =
        (scan (linesS1Split.take 2 ++ linesS1Split.drop 2)).state) :=
  ⟨⟨by decide, by decide, by decide⟩,
   C14_line_without_marker_is_ignored (linesS1Split.take 2) (linesS1Split.drop 2) lineFiller
     (by decide) (by decide) (by decide)⟩

/-! ## C17: every record costs four lines -/

/-- The four ways in which one line changes the loop variables. -/
theorem parseLine_cases (p : Scan) (line : List Char) :
    parseLine p line = p ∨
    (p.state = 0 ∧ contains line rowStart = true ∧
      parseLine p line = { p with state := 1 }) ∨
    ((p.state = 1 ∨ p.state = 2) ∧ contains line spanStart = true ∧
      ∃ gi, parseLine p line = { p with state := p.state + 1, gi := gi }) ∨
    (p.state = 3 ∧ contains line nameStart = true ∧
      ∃ gi, parseLine p line = { state := 0, gi := gi, games := p.games ++ [gi] }) := by
  unfold parseLine
  by_cases h0 : p.state = 0
  · by_cases hr : contains line rowStart = true
    · right; left
      simp [h0, hr]
    · left
      simp [h0, hr]
  · by_cases h12 : p.state = 1 ∨ p.state = 2
    · cases hi : index line spanStart with
      | none => left; simp [h0, h12, hi]
      | some start0 =>
        right; right; left
        refine ⟨h12, by simp [contains, hi], readNumber p.state p.gi line start0, ?_⟩
        simp [h0, h12, hi]
    · by_cases h3 : p.state = 3
      · cases hi : index line nameStart with
        | none => left; simp [h3, hi]
        | some start0 =>
          right; right; right
          refine ⟨h3, by simp [contains, hi], readLink p.gi line start0, ?_⟩
          simp [h3, hi]
      · left
        simp [h0, h12, h3]

theorem parseLine_row_budget (p : Scan) (line : List Char) :
    (parseLine p line).games.length + (if (parseLine p line).state = 0 then 0 else 1) ≤
      p.games.length + (if p.state = 0 then 0 else 1) +
        (if contains line rowStart = true then 1 else 0) := by
  rcases parseLine_cases p line with h | ⟨h0, hr, h⟩ | ⟨h12, _, gi, h⟩ | ⟨h3, _, gi, h⟩
  · rw [h]; omega
  · rw [h]; simp [h0, hr]
  · rw [h]
    have : p.state ≠ 0 := by omega
    simp [this]
  · rw [h]
    simp [h3]

theorem parseLine_link_budget (p : Scan) (line : List Char) :
    (parseLine p line).games.length ≤
      p.games.length + (if contains line nameStart = true then 1 else 0) := by
  rcases parseLine_cases p line with h | ⟨_, _, h⟩ | ⟨_, _, gi, h⟩ | ⟨_, hn, gi, h⟩
  · rw [h]; omega
  · rw [h]; simp
  · rw [h]; simp
  · rw [h]; simp [hn]

theorem parseLine_line_budget (p : Scan) (line : List Char) :
    4 * (parseLine p line).games.length + (parseLine p line).state ≤
      4 * p.games.length + p.state + 1 := by
  rcases parseLine_cases p line with h | ⟨h0, _, h⟩ | ⟨_, _, gi, h⟩ | ⟨h3, _, gi, h⟩
  · rw [h]; omega
  · rw [h]; simp [h0]
  · rw [h]; simp only; omega
  · rw [h]
    simp only [List.length_append, List.length_singleton]
    omega

theorem scanFrom_budget (lines : List (List Char)) (p : Scan) :
    (scanFrom p lines).games.length + (if (scanFrom p lines).state = 0 then 0 else 1) ≤
        p.games.length + (if p.state = 0 then 0 else 1) + linesWith rowStart lines ∧
    (scanFrom p lines).games.length ≤ p.games.length + linesWith nameStart lines ∧
    4 * (scanFrom p lines).games.length + (scanFrom p lines).state ≤
        4 * p.games.length + p.state + lines.length := by
  induction lines generalizing p with
  | nil => simp [scanFrom, linesWith]
  | cons l rest ih =>
    obtain ⟨i1, i2, i3⟩ := ih (parseLine p l)
    have s1 := parseLine_row_budget p l
    have s2 := parseLine_link_budget p l
    have s3 := parseLine_line_budget p l
    have e : scanFrom p (l :: rest) = scanFrom (parseLine p l) rest := rfl
    have c1 : linesWith rowStart (l :: rest) =
        linesWith rowStart rest + (if contains l rowStart = true then 1 else 0) := by
      simp [linesWith, List.countP_cons]
    have c2 : linesWith nameStart (l :: rest) =
        linesWith nameStart rest + (if contains l nameStart = true then 1 else 0) := by
      simp [linesWith, List.countP_cons]
    rw [e, c1, c2, List.length_cons]
    refine ⟨by omega, by omega, by omega⟩

/-- The number of records is at most the number of pieces containing the row marker,
at most the number of pieces containing the link marker, and at most a quarter of the
number of pieces. -/
theorem games_count_bounds (lines : List (List Char)) :
    (games lines).length ≤ linesWith rowStart lines ∧
    (games lines).length ≤ linesWith nameStart lines ∧
    (games lines).length ≤ lines.length / 4 := by
  obtain ⟨h1, h2, h3⟩ := scanFrom_budget lines Scan.init
  have e0 : Scan.init.games.length = 0 := rfl
  have e1 : Scan.init.state = 0 := rfl
  simp only [e0, e1, if_true] at h1 h2 h3
  unfold games scan
  refine ⟨?_, by omega, by omega⟩
  split at h1 <;> omega

/-! ## C15: the first occurrence of a marker decides -/

theorem readNumber_first_span (state : Nat) (gi : GameInfo) (a t b : List Char)
    (ht : contains t spanEnd = false) :
    readNumber state gi (a ++ (spanStart ++ (t ++ (spanEnd ++ b)))) a.length =
      match atoi (stripCommas t) with
      | some v => if state = 1 then { gi with Current := v } else { gi with Peak := v }
      | none => gi := by
  have hi : index (t ++ (spanEnd ++ b)) spanEnd = some t.length :=
    index_append_marker noSelfOverlap_spanEnd t b ht
  unfold readNumber
  simp only [drop_marker, hi, slice_marker]
  cases atoi (stripCommas t) <;> rfl

theorem parseLine_first_span (p : Scan) (a t b : List Char)
    (hs : p.state = 1 ∨ p.state = 2)
    (ha : contains a spanStart = false) (ht : contains t spanEnd = false) :
    parseLine p (a ++ (spanStart ++ (t ++ (spanEnd ++ b)))) =
      { p with state := p.state + 1,
               gi := match atoi (stripCommas t) with
                 | some v => if p.state = 1 then { p.gi with Current := v }
                             else { p.gi with Peak := v }
                 | none => p.gi } := by
  have hi := index_append_marker noSelfOverlap_spanStart a (t ++ (spanEnd ++ b)) ha
  have h0 : p.state ≠ 0 := by omega
  unfold parseLine
  simp only [h0, if_false, hs, if_true, hi, readNumber_first_span _ _ _ _ _ ht]

/-- In state 1 or 2, on a piece with two complete spans the state advances by one and
the one field assigned is the integer of the first span; in state 3, on a piece with two
link markers whose first link is complete, the record takes `Url` and `Name` from the
first link. -/
theorem parseLine_first_occurrence (p q : Scan)
    (a t1 m t2 b a3 url1 name1 m3 rest3 : List Char)
    (hp : p.state = 1 ∨ p.state = 2)
    (ha : contains a spanStart = false) (ht1 : contains t1 spanEnd = false)
    (hq : q.state = 3) (ha3 : contains a3 nameStart = false)
    (hu : contains url1 hrefEnd = false) (hn : contains name1 nameEnd = false) :
    parseLine p (a ++ spanStart ++ t1 ++ spanEnd ++ m ++ spanStart ++ t2 ++ spanEnd ++ b) =
      { p with state := p.state + 1,
               gi := match atoi (stripCommas t1) with
                 | some v => if p.state = 1 then { p.gi with Current := v }
                             else { p.gi with Peak := v }
                 | none => p.gi } ∧
    parseLine q (a3 ++ nameStart ++ url1 ++ hrefEnd ++ name1 ++ nameEnd ++ m3 ++
        nameStart ++ rest3) =
      { state := 0, gi := { q.gi with Url := url1, Name := name1 },
        games := q.games ++ [{ q.gi with Url := url1, Name := name1 }] } := by
  constructor
  · have h := parseLine_first_span p a t1 (m ++ (spanStart ++ (t2 ++ (spanEnd ++ b)))) hp ha ht1
    simpa only [List.append_assoc] using h
  · have h := parseLine_link q a3 url1 name1 (m3 ++ (nameStart ++ rest3)) hq ha3 hu hn
    simpa only [List.append_assoc] using h

/-! ## C16: a link line without `</a>` -/

/-- In state 3, a link whose href is terminated but whose anchor is not closed appends
one record with the href as `Url` and leaves `Name` as it was in `gi`. -/
theorem parseLine_open_anchor (p : Scan) (a url rest : List Char) (hs : p.state = 3)
    (ha : contains a nameStart = false) (hu : contains url hrefEnd = false)
    (hr : contains rest nameEnd = false) :
    parseLine p (a ++ (nameStart ++ (url ++ (hrefEnd ++ rest)))) =
      { state := 0, gi := { p.gi with Url := url },
        games := p.games ++ [{ p.gi with Url := url }] } := by
  have hi := index_append_marker noSelfOverlap_nameStart a (url ++ (hrefEnd ++ rest)) ha
  have hi1 : index (url ++ (hrefEnd ++ rest)) hrefEnd = some url.length :=
    index_append_marker noSelfOverlap_hrefEnd url rest hu
  have hd : (a ++ (nameStart ++ (url ++ (hrefEnd ++ rest)))).drop
      (a.length + nameStart.length + (url.length + 2)) = rest := by
    have h2 : (2 : Nat) = hrefEnd.length := by decide
    rw [← Nat.add_assoc, h2]
    have e : a ++ (nameStart ++ (url ++ (hrefEnd ++ rest))) =
        (a ++ nameStart ++ url) ++ (hrefEnd ++ rest) := by
      simp [List.append_assoc]
    have l : a.length + nameStart.length + url.length = (a ++ nameStart ++ url).length := by
      simp [Nat.add_assoc]
    rw [e, l, drop_marker]
  have hn := index_none_of_contains_false hr
  have hrl : readLink p.gi (a ++ (nameStart ++ (url ++ (hrefEnd ++ rest)))) a.length =
      { p.gi with Url := url } := by
    unfold readLink
    simp only [drop_marker, hi1, slice_marker, hd, hn]
  unfold parseLine
  simp only [hs, hi, hrl]
  simp

/-- C16 (code defect, evaluated): on a first row a link line `...">Bar` without `</a>`
appends `{Name: "", Url: /app/7/Bar/}` and returns to state 0, as claimed; when the
same row follows another row, the record is appended with the previous row's `Name`
(`Foo Game`), not with an empty one. -/
theorem C16_open_anchor_keeps_previous_name :
    games linesOpenAnchorFirst =
      [{ Name := [], Url := "/app/7/Bar/".toList, Current := 10, Peak := 20 }] ∧
    (scan linesOpenAnchorFirst).state = 0 ∧
    games linesOpenAnchor =
      [fooGame,
       { Name := "Foo Game".toList, Url := "/app/7/Bar/".toList, Current := 10, Peak := 20 }] ∧
    (scan linesOpenAnchor).state = 0 := by
  decide

/-! ## C11: the interval flag -/

theorem foldl_digits_eq_ofDigits (xs : List Nat) :
    xs.foldl (fun n x => n * 10 + x) 0 = Nat.ofDigits 10 xs.reverse := by
  induction xs using List.reverseRecOn with
  | nil => simp
  | append_singleton xs x ih =>
    rw [List.foldl_append, List.reverse_append]
    simp only [List.foldl_cons, List.foldl_nil, List.reverse_singleton, List.singleton_append,
      Nat.ofDigits_cons]
    rw [ih]
    omega

theorem foldl_chars_eq_decimalValue (ds : List Char) :
    ds.foldl (fun n c => n * 10 + (c.toNat - 48)) 0 = decimalValue ds := by
  have h := foldl_digits_eq_ofDigits (ds.map (fun c => c.toNat - 48))
  rw [List.foldl_map] at h
  rw [decimalValue, List.map_reverse]
  exact h

theorem isDigit_iff (c : Char) : isDigit c = true ↔ 48 ≤ c.toNat ∧ c.toNat ≤ 57 := by
  simp [isDigit]

theorem parseDigits_eq_some_iff (ds : List Char) (n : Nat) :
    parseDigits ds = some n ↔
      ds ≠ [] ∧ (∀ c ∈ ds, 48 ≤ c.toNat ∧ c.toNat ≤ 57) ∧ n = decimalValue ds := by
  unfold parseDigits
  by_cases h1 : ds = []
  · simp [h1]
  · by_cases h2 : ds.all isDigit = true
    · have h3 : ∀ c ∈ ds, 48 ≤ c.toNat ∧ c.toNat ≤ 57 := fun c hc =>
        (isDigit_iff c).mp (List.all_eq_true.mp h2 c hc)
      rw [if_neg h1, if_pos h2, foldl_chars_eq_decimalValue]
      constructor
      · intro h
        exact ⟨h1, h3, by simpa using h.symm⟩
      · rintro ⟨_, _, h⟩
        rw [h]
    · have h3 : ¬ ∀ c ∈ ds, 48 ≤ c.toNat ∧ c.toNat ≤ 57 := by
        intro h
        exact h2 (List.all_eq_true.mpr (fun c hc => (isDigit_iff c).mpr (h c hc)))
      rw [if_neg h1, if_neg h2]
      constructor
      · intro h; exact absurd h (by simp)
      · rintro ⟨_, h, _⟩; exact absurd h h3

theorem parseInt_minus (t : List Char) :
    parseInt ('-' :: t) 64 =
      (parseDigits t).bind (fun un => if un ≤ 2 ^ 63 then some (-(un : Int)) else none) := by
  cases hd : parseDigits t <;> simp [parseInt, hd]

theorem parseInt_plus (t : List Char) :
    parseInt ('+' :: t) 64 =
      (parseDigits t).bind (fun un => if un < 2 ^ 63 then some (un : Int) else none) := by
  have h : (('+' : Char) == '-') = false := by decide
  cases hd : parseDigits t <;> simp [parseInt, hd, h]

theorem parseInt_plain (c : Char) (t : List Char) (h1 : c ≠ '-') (h2 : c ≠ '+') :
    parseInt (c :: t) 64 =
      (parseDigits (c :: t)).bind (fun un => if un < 2 ^ 63 then some (un : Int) else none) := by
  have e1 : (c == '-') = false := by simpa using h1
  have e2 : (c == '+') = false := by simpa using h2
  cases hd : parseDigits (c :: t) <;> simp [parseInt, hd, e1, e2]

/-- `strconv.ParseInt(s, 10, 64)` succeeds with `v` exactly when `s` is a valid base-10
signed 64-bit integer of value `v`. -/
theorem parseInt_eq_some_iff (s : List Char) (v : Int) :
    parseInt s 64 = some v ↔ IsInt64Text s v := by
  cases s with
  | nil =>
    constructor
    · intro h; simp [parseInt] at h
    · rintro ⟨ds, hne, _, h | h, _⟩
      · rcases h.1 with e | e
        · exact absurd e.symm hne
        · exact absurd e (by simp)
      · exact absurd h.1 (by simp)
  | cons c t =>
    by_cases hm : c = '-'
    · subst hm
      rw [parseInt_minus]
      constructor
      · intro h
        cases hd : parseDigits t with
        | none => rw [hd] at h; exact absurd h (by simp)
        | some un =>
          rw [hd] at h
          obtain ⟨hne, hall, hval⟩ := (parseDigits_eq_some_iff t un).mp hd
          by_cases hr : un ≤ 2 ^ 63
          · simp only [Option.some_bind, if_pos hr, Option.some.injEq] at h
            refine ⟨t, hne, hall, Or.inr ⟨rfl, by rw [← hval]; exact h.symm⟩, ?_, ?_⟩
            · rw [← h]; omega
            · rw [← h]; omega
          · simp only [Option.some_bind, if_neg hr] at h
            exact absurd h (by simp)
      · rintro ⟨ds, hne, hall, h | h, hlo, hhi⟩
        · rcases h.1 with e | e
          · have hc := hall '-' (by rw [← e]; simp)
            exact absurd hc.1 (by decide)
          · exact absurd (List.cons.inj e).1 (by decide)
        · obtain ⟨e, hv⟩ := h
          have et : t = ds := (List.cons.inj e).2
          subst et
          have hd := (parseDigits_eq_some_iff t (decimalValue t)).mpr ⟨hne, hall, rfl⟩
          rw [hd]
          have hr : decimalValue t ≤ 2 ^ 63 := by omega
          simp only [Option.some_bind, if_pos hr, hv]
    · by_cases hp : c = '+'
      · subst hp
        rw [parseInt_plus]
        constructor
        · intro h
          cases hd : parseDigits t with
          | none => rw [hd] at h; exact absurd h (by simp)
          | some un =>
            rw [hd] at h
            obtain ⟨hne, hall, hval⟩ := (parseDigits_eq_some_iff t un).mp hd
            by_cases hr : un < 2 ^ 63
            · simp only [Option.some_bind, if_pos hr, Option.some.injEq] at h
              refine ⟨t, hne, hall, Or.inl ⟨Or.inr rfl, by rw [← hval]; exact h.symm⟩, ?_, ?_⟩
              · rw [← h]; omega
              · rw [← h]; omega
            · simp only [Option.some_bind, if_neg hr] at h
              exact absurd h (by simp)
        · rintro ⟨ds, hne, hall, h | h, hlo, hhi⟩
          · obtain ⟨e, hv⟩ := h
            rcases e with e | e
            · have hc := hall '+' (by rw [← e]; simp)
              exact absurd hc.1 (by decide)
            · have et : t = ds := (List.cons.inj e).2
              subst et
              have hd := (parseDigits_eq_some_iff t (decimalValue t)).mpr ⟨hne, hall, rfl⟩
              rw [hd]
              have hr : decimalValue t < 2 ^ 63 := by omega
              simp only [Option.some_bind, if_pos hr, hv]
          · exact absurd (List.cons.inj h.1).1 (by decide)
      · rw [parseInt_plain c t hm hp]
        constructor
        · intro h
          cases hd : parseDigits (c :: t) with
          | none => rw [hd] at h; exact absurd h (by simp)
          | some un =>
            rw [hd] at h
            obtain ⟨hne, hall, hval⟩ := (parseDigits_eq_some_iff (c :: t) un).mp hd
            by_cases hr : un < 2 ^ 63
            · simp only [Option.some_bind, if_pos hr, Option.some.injEq] at h
              refine ⟨c :: t, hne, hall, Or.inl ⟨Or.inl rfl, by rw [← hval]; exact h.symm⟩,
                ?_, ?_⟩
              · rw [← h]; omega
              · rw [← h]; omega
            · simp only [Option.some_bind, if_neg hr] at h
              exact absurd h (by simp)
        · rintro ⟨ds, hne, hall, h | h, hlo, hhi⟩
          · obtain ⟨e, hv⟩ := h
            rcases e with e | e
            · subst e
              have hd := (parseDigits_eq_some_iff (c :: t) (decimalValue (c :: t))).mpr
                ⟨hne, hall, rfl⟩
              rw [hd]
              have hr : decimalValue (c :: t) < 2 ^ 63 := by omega
              simp only [Option.some_bind, if_pos hr, hv]
            · exact absurd (List.cons.inj e).1 hp
          · exact absurd (List.cons.inj h.1).1 hm

/-- The variable `interval`: the parsed integer when the flag is a valid base-10 signed
64-bit integer, and 3600 for every other value. -/
theorem interval_fallback (flagInterval : List Char) :
    (∀ v : Int, IsInt64Text flagInterval v → interval flagInterval = v) ∧
    ((¬ ∃ v : Int, IsInt64Text flagInterval v) → interval flagInterval = 3600) := by
  constructor
  · intro v hv
    have h := (parseInt_eq_some_iff flagInterval v).mpr hv
    simp [interval, h]
  · intro hno
    cases hp : parseInt flagInterval 64 with
    | none => simp [interval, hp]
    | some v => exact absurd ⟨v, (parseInt_eq_some_iff flagInterval v).mp hp⟩ hno

theorem not_isInt64Text_of_parseInt_none (s : List Char) (h : parseInt s 64 = none) :
    ¬ ∃ v : Int, IsInt64Text s v := by
  rintro ⟨v, hv⟩
  have h2 := (parseInt_eq_some_iff s v).mpr hv
  rw [h] at h2
  exact absurd h2 (by simp)

/-- For intervals of at most 9223372036 seconds in absolute value the product
`interval * 1e9` does not wrap around. -/
theorem timerNanos_exact (interval : Int) (h1 : -9223372036 ≤ interval)
    (h2 : interval ≤ 9223372036) : timerNanos interval = interval * 1000000000 := by
  unfold timerNanos
  omega

/-! ## C12: the file path -/

theorem format_layout (t : LocalDate) :
    format t "2006/01/2006-01-02".toList =
      appendInt t.year 4 ++ ('/' :: (appendInt (t.month : Int) 2 ++ ('/' ::
        (appendInt t.year 4 ++ ('-' :: (appendInt (t.month : Int) 2 ++ ('-' ::
          (appendInt (t.day : Int) 2 ++ []))))))))  := by
  rfl

theorem decimal_one (n : Nat) (h : n < 10) : decimal n = [digitByte n] := by
  unfold decimal
  by_cases h0 : n = 0
  · subst h0; rfl
  · rw [if_neg h0, Nat.digits_def' (by decide) (by omega)]
    have h1 : n / 10 = 0 := by omega
    have h2 : n % 10 = n := by omega
    simp [h1, h2]

theorem decimal_two (n : Nat) (h1 : 10 ≤ n) (h2 : n < 100) :
    decimal n = [digitByte (n / 10), digitByte (n % 10)] := by
  unfold decimal
  rw [if_neg (by omega), Nat.digits_def' (by decide) (by omega),
    Nat.digits_def' (by decide) (by omega)]
  have h3 : n / 10 / 10 = 0 := by omega
  have h4 : n / 10 % 10 = n / 10 := by omega
  simp [h3, h4]

theorem decimal_four (n : Nat) (h1 : 1000 ≤ n) (h2 : n < 10000) :
    decimal n = fourDigits n := by
  unfold decimal fourDigits
  rw [if_neg (by omega), Nat.digits_def' (by decide) (by omega),
    Nat.digits_def' (by decide) (by omega), Nat.digits_def' (by decide) (by omega),
    Nat.digits_def' (by decide) (by omega)]
  have h3 : n / 10 / 10 / 10 / 10 = 0 := by omega
  have h4 : n / 10 / 10 / 10 % 10 = n / 1000 := by omega
  have h5 : n / 10 / 10 % 10 = n / 100 % 10 := by omega
  simp [h3, h4, h5]

theorem appendInt_two (n : Nat) (h : n < 100) : appendInt (n : Int) 2 = twoDigits n := by
  have hneg : ¬ ((n : Int) < 0) := by omega
  unfold appendInt twoDigits
  rw [if_neg hneg, Int.natAbs_ofNat]
  by_cases h1 : n < 10
  · rw [decimal_one n h1]
    have h2 : n / 10 = 0 := by omega
    have h3 : n % 10 = n := by omega
    rw [h2, h3]
    rfl
  · rw [decimal_two n (by omega) h]
    rfl

theorem appendInt_four (n : Nat) (h1 : 1000 ≤ n) (h2 : n < 10000) :
    appendInt (n : Int) 4 = fourDigits n := by
  have hneg : ¬ ((n : Int) < 0) := by omega
  unfold appendInt
  rw [if_neg hneg, Int.natAbs_ofNat, decimal_four n h1 h2]
  rfl

/-- C12: for a time whose local date is year `Y` (1000..9999), month `M` (1..12) and
day `D` (1..31), `getFilePath` is `stats/YYYY/MM/YYYY-MM-DD.json`, with `MM` and `DD` of
two digits; the year and month of the directory are those of the file name. -/
theorem C12_file_path_of_date (Y M D : Nat) (hY1 : 1000 ≤ Y) (hY2 : Y ≤ 9999)
    (hM1 : 1 ≤ M) (hM2 : M ≤ 12) (hD1 : 1 ≤ D) (hD2 : D ≤ 31) :
    getFilePath { year := (Y : Int), month := M, day := D } =
      "stats/".toList ++ fourDigits Y ++ "/".toList ++ twoDigits M ++ "/".toList ++
        fourDigits Y ++ "-".toList ++ twoDigits M ++ "-".toList ++ twoDigits D ++
        ".json".toList := by
  unfold getFilePath
  rw [format_layout]
  simp only [appendInt_four Y hY1 (by omega), appendInt_two M (by omega),
    appendInt_two D (by omega)]
  simp

/-- Witness of C12: 7 March 2012 gives `stats/2012/03/2012-03-07.json`. -/
theorem C12_file_path_of_date_witness :
    getFilePath { year := 2012, month := 3, day := 7 } =
       "stats/2012/03/2012-03-07.json".toList :=
  (C12_file_path_of_date 2012 3 7 (by decide) (by decide) (by decide) (by decide)
    (by decide) (by decide)).trans (by decide)

/-! ## C13: the happy path -/

theorem digitByte_toNat (d : Nat) (h : d < 10) : (digitByte d).toNat = 48 + d := by
  interval_cases d <;> rfl

theorem decimal_ne_nil (n : Nat) : decimal n ≠ [] := by
  unfold decimal
  by_cases h0 : n = 0
  · simp [h0]
  · rw [if_neg h0]
    intro h
    have h1 : Nat.digits 10 n = [] := by simpa using h
    exact h0 (Nat.digits_eq_nil_iff_eq_zero.mp h1)

theorem decimal_digits (n : Nat) : ∀ ch ∈ decimal n, ∃ d, d < 10 ∧ ch = digitByte d := by
  intro ch hch
  unfold decimal at hch
  by_cases h0 : n = 0
  · rw [if_pos h0] at hch
    exact ⟨0, by decide, by simpa using hch⟩
  · rw [if_neg h0] at hch
    obtain ⟨d, hd, e⟩ := List.mem_map.mp hch
    exact ⟨d, Nat.digits_lt_base (by decide) (List.mem_reverse.mp hd), e.symm⟩

theorem decimalValue_decimal (n : Nat) : decimalValue (decimal n) = n := by
  unfold decimalValue decimal
  by_cases h0 : n = 0
  · subst h0; rfl
  · rw [if_neg h0, ← List.map_reverse, List.reverse_reverse, List.map_map]
    have e : List.map ((fun c => c.toNat - 48) ∘ digitByte) (Nat.digits 10 n) =
        Nat.digits 10 n := by
      conv_rhs => rw [← List.map_id (Nat.digits 10 n)]
      apply List.map_congr_left
      intro d hd
      have hlt : d < 10 := Nat.digits_lt_base (by decide) hd
      simp only [Function.comp, digitByte_toNat d hlt, id]
      omega
    rw [e, Nat.ofDigits_digits]

theorem atoi_eq_parseInt (s : List Char) : atoi s = parseInt s 64 := by
  cases s with
  | nil => rfl
  | cons c t => rfl

/-- The decimal representation of a count below `2^63` is read back by `strconv.Atoi`. -/
theorem atoi_decimal (n : Nat) (h : n < 2 ^ 63) : atoi (decimal n) = some (n : Int) := by
  rw [atoi_eq_parseInt]
  apply (parseInt_eq_some_iff _ _).mpr
  refine ⟨decimal n, decimal_ne_nil n, ?_, Or.inl ⟨Or.inl rfl, ?_⟩, by omega, by omega⟩
  · intro ch hch
    obtain ⟨d, hd, e⟩ := decimal_digits n ch hch
    rw [e, digitByte_toNat d hd]
    omega
  · rw [decimalValue_decimal]

theorem stripCommas_groupThousands (l : List Char) :
    stripCommas (groupThousands l) = stripCommas l := by
  induction l using groupThousands.induct with
  | case1 a b c => rfl
  | case2 a b c x xs ih =>
    simp only [groupThousands]
    simp only [stripCommas] at ih ⊢
    simp [List.filter_cons, ih]
  | case3 l h => 
    unfold groupThousands
    split
    · rename_i a b c rest
      exact absurd rfl (h a b c rest)
    · rfl

theorem stripCommas_withCommas (n : Nat) : stripCommas (withCommas n) = decimal n := by
  unfold withCommas
  have h1 : stripCommas (groupThousands (decimal n).reverse).reverse =
      (stripCommas (groupThousands (decimal n).reverse)).reverse := by
    simp [stripCommas, List.filter_reverse]
  rw [h1, stripCommas_groupThousands]
  have h2 : stripCommas (decimal n).reverse = (decimal n).reverse := by
    unfold stripCommas
    apply List.filter_eq_self.mpr
    intro ch hch
    obtain ⟨d, hd, e⟩ := decimal_digits n ch (List.mem_reverse.mp hch)
    subst e
    interval_cases d <;> decide
  rw [h2, List.reverse_reverse]

theorem atoi_withCommas (n : Nat) (h : n < 2 ^ 63) :
    atoi (stripCommas (withCommas n)) = some (n : Int) := by
  rw [stripCommas_withCommas, atoi_decimal n h]

/-- C13 (counterexample): the count `2^63`, written `9,223,372,036,854,775,808`, does
not fit a 64-bit `int`; `strconv.Atoi` reports a range error and the record is
appended with `Current = 0`. -/
theorem C13_count_beyond_int_is_dropped :
    lineHugeCount = spanStart ++ withCommas 9223372036854775808 ++ spanEnd ∧
    games linesHugeCount =
      [{ Name := "Foo Game".toList, Url := "/app/42/FooGame/".toList,
         Current := 0, Peak := 5000 }] ∧
    games linesHugeCount ≠
      [{ Name := "Foo Game".toList, Url := "/app/42/FooGame/".toList,
         Current := 9223372036854775808, Peak := 5000 }] := by
  refine ⟨?_, by decide, by decide⟩
  have e : withCommas 9223372036854775808 = "9,223,372,036,854,775,808".toList := by
    simp [withCommas, decimal, groupThousands, digitByte]
  rw [e]
  decide

/-- The happy path on four pieces: counts below `2^63` written with thousands-separator
commas, a url without `">` and a name without `</a>` give exactly the record of the
row, and the machine ends in state 0. -/
theorem games_happy_path (l0 a1 b1 a2 b2 a3 b3 url name : List Char) (c p : Nat)
    (hc : c < 2 ^ 63) (hp : p < 2 ^ 63)
    (h0 : contains l0 rowStart = true)
    (h1 : contains a1 spanStart = false) (h2 : contains a2 spanStart = false)
    (h3 : contains a3 nameStart = false)
    (hu : contains url hrefEnd = false) (hn : contains name nameEnd = false) :
    games [l0, a1 ++ spanStart ++ withCommas c ++ spanEnd ++ b1,
           a2 ++ spanStart ++ withCommas p ++ spanEnd ++ b2,
           a3 ++ nameStart ++ url ++ hrefEnd ++ name ++ nameEnd ++ b3] =
      [{ Name := name, Url := url, Current := (c : Int), Peak := (p : Int) }] ∧
    (scan [l0, a1 ++ spanStart ++ withCommas c ++ spanEnd ++ b1,
           a2 ++ spanStart ++ withCommas p ++ spanEnd ++ b2,
           a3 ++ nameStart ++ url ++ hrefEnd ++ name ++ nameEnd ++ b3]).state = 0 := by
  have h := scanFrom_clean_row Scan.init l0 a1 (withCommas c) b1 a2 (withCommas p) b2 a3
    url name b3 (c : Int) (p : Int) rfl h0 h1 (atoi_withCommas c hc) h2
    (atoi_withCommas p hp) h3 hu hn
  simp only [games, scan, List.append_assoc]
  rw [h]
  exact ⟨rfl, rfl⟩

/-! ## The line reader delivers short lines whole -/

theorem dropCR_length (seg : List Char) : seg.length ≤ (dropCR seg).length + 1 := by
  unfold dropCR
  split
  · rw [List.length_dropLast]; omega
  · omega

theorem dropCR_subset (seg : List Char) : ∀ c ∈ dropCR seg, c ∈ seg := by
  intro c hc
  unfold dropCR at hc
  split at hc
  · exact List.mem_of_mem_dropLast hc
  · exact hc

theorem takeWhile_before_newline (seg rest : List Char) (h : '\n' ∉ seg) :
    (seg ++ '\n' :: rest).takeWhile (fun c => c != '\n') = seg := by
  rw [List.takeWhile_append_of_pos]
  · simp
  · intro a ha
    have : a ≠ '\n' := fun e => h (e ▸ ha)
    simpa using this

theorem takeWhile_no_newline (data : List Char) (h : '\n' ∉ data) :
    data.takeWhile (fun c => c != '\n') = data := by
  apply List.takeWhile_eq_self_iff.mpr
  intro a ha
  have : a ≠ '\n' := fun e => h (e ▸ ha)
  simpa using this

/-- A line end within the buffer: `ReadLine` returns the bytes before it, less a
final `\r`, and leaves the bytes after it. -/
theorem readLine_newline (seg rest : List Char) (h : '\n' ∉ seg)
    (hlen : seg.length < defaultBufSize) :
    readLine (seg ++ '\n' :: rest) = some (dropCR seg, rest) := by
  obtain ⟨k, hk⟩ : ∃ k, defaultBufSize - seg.length = k + 1 := ⟨defaultBufSize - seg.length - 1, by omega⟩
  have hw : (seg ++ '\n' :: rest).take defaultBufSize = seg ++ '\n' :: rest.take k := by
    rw [List.take_append_eq_append_take, List.take_of_length_le (by omega), hk,
      List.take_succ_cons]
  have hne : seg ++ '\n' :: rest ≠ [] := by simp
  unfold readLine
  rw [if_neg hne]
  simp only [hw, takeWhile_before_newline seg _ h]
  have hlt : seg.length < (seg ++ '\n' :: List.take k rest).length := by
    simp
  rw [if_pos hlt]
  have hd : (seg ++ '\n' :: rest).drop (seg.length + 1) = rest := by
    have e2 : seg ++ '\n' :: rest = (seg ++ ['\n']) ++ rest := by simp
    rw [e2]
    exact List.drop_left' (by simp)
  rw [hd]

/-- The last bytes of the body without line end, fewer than the buffer holds, are
returned whole. -/
theorem readLine_last (data : List Char) (h : '\n' ∉ data) (hne : data ≠ [])
    (hlen : data.length < defaultBufSize) : readLine data = some (data, []) := by
  unfold readLine
  rw [if_neg hne]
  have hw : data.take defaultBufSize = data := List.take_of_length_le (by omega)
  simp only [hw, takeWhile_no_newline data h]
  rw [if_neg (by omega), if_pos hlen]

/-- A full buffer without line end is returned as it is, and the scan goes on behind
it. -/
theorem readLine_full (x y : List Char) (hx : x.length = defaultBufSize) (h : '\n' ∉ x)
    (hcr : x.getLast? ≠ some '\r') : readLine (x ++ y) = some (x, y) := by
  have hne : x ++ y ≠ [] := by
    intro e
    have : (x ++ y).length = 0 := by rw [e]; rfl
    rw [List.length_append, hx] at this
    have hb : defaultBufSize = 4096 := rfl
    omega
  have hw : (x ++ y).take defaultBufSize = x := List.take_left' hx
  have hd : (x ++ y).drop defaultBufSize = y := List.drop_left' hx
  unfold readLine
  rw [if_neg hne]
  simp only [hw, hd, takeWhile_no_newline x h]
  rw [if_neg (by omega), if_neg (by rw [List.length_append]; omega), if_neg hcr]

theorem readLine_nil : readLine [] = none := by simp [readLine]

theorem readLine_rest_lt (data line rest : List Char)
    (h : readLine data = some (line, rest)) : rest.length < data.length := by
  have hb : defaultBufSize = 4096 := rfl
  unfold readLine at h
  by_cases hne : data = []
  · rw [if_pos hne] at h; exact absurd h (by simp)
  · rw [if_neg hne] at h
    have hpos : 0 < data.length := List.length_pos.mpr hne
    simp only at h
    split at h
    · have e : rest = data.drop (((data.take defaultBufSize).takeWhile
          (fun c => c != '\n')).length + 1) := by
        simp only [Option.some.injEq, Prod.mk.injEq] at h; exact h.2.symm
      rw [e, List.length_drop]; omega
    · split at h
      · have e : rest = [] := by
          simp only [Option.some.injEq, Prod.mk.injEq] at h; exact h.2.symm
        rw [e]; exact hpos
      · split at h
        · have e : rest = data.drop (defaultBufSize - 1) := by
            simp only [Option.some.injEq, Prod.mk.injEq] at h; exact h.2.symm
          rw [e, List.length_drop]; omega
        · have e : rest = data.drop defaultBufSize := by
            simp only [Option.some.injEq, Prod.mk.injEq] at h; exact h.2.symm
          rw [e, List.length_drop]; omega

theorem readLinesFuel_nil (fuel : Nat) : readLinesFuel fuel [] = [] := by
  cases fuel with
  | zero => rfl
  | succ n => simp [readLinesFuel, readLine_nil]

/-- Enough fuel: with at least one call per byte the loop reaches the end of the body,
and more fuel changes nothing. -/
theorem readLinesFuel_eq (fuel1 : Nat) :
    ∀ (fuel2 : Nat) (data : List Char), data.length ≤ fuel1 → data.length ≤ fuel2 →
      readLinesFuel fuel1 data = readLinesFuel fuel2 data := by
  induction fuel1 with
  | zero =>
    intro fuel2 data h1 _
    have e : data = [] := List.length_eq_zero.mp (by omega)
    rw [e, readLinesFuel_nil, readLinesFuel_nil]
  | succ n ih =>
    intro fuel2 data h1 h2
    cases fuel2 with
    | zero =>
      have e : data = [] := List.length_eq_zero.mp (by omega)
      rw [e, readLinesFuel_nil, readLinesFuel_nil]
    | succ m =>
      unfold readLinesFuel
      cases hr : readLine data with
      | none => rfl
      | some pr =>
        obtain ⟨line, rest⟩ := pr
        have hlt := readLine_rest_lt data line rest hr
        simp only
        rw [ih m rest (by omega) (by omega)]

theorem readLinesFuel_stable (fuel : Nat) (data : List Char) (h : data.length ≤ fuel) :
    readLinesFuel fuel data = readLines data :=
  readLinesFuel_eq fuel data.length data h (Nat.le_refl _)

/-- The loop hands over what one call returns and goes on with the bytes left. -/
theorem readLines_step (data line rest : List Char) (h : readLine data = some (line, rest)) :
    readLines data = line :: readLines rest := by
  have hlt := readLine_rest_lt data line rest h
  have e1 : readLines data = readLinesFuel ((data.length - 1) + 1) data := by
    unfold readLines
    rw [show data.length - 1 + 1 = data.length by omega]
  rw [e1]
  simp only [readLinesFuel, h]
  rw [readLinesFuel_stable (data.length - 1) rest (by omega)]

theorem readLines_nil : readLines [] = [] := rfl


/-! ## The lines of a page -/

theorem normalizeEol_no_newline (data : List Char) (h : '\n' ∉ data) :
    normalizeEol data = data := by
  induction data with
  | nil => rfl
  | cons c rest ih =>
    have h1 : '\n' ∉ rest := fun e => h (List.mem_cons_of_mem _ e)
    have h2 : rest.head? ≠ some '\n' := by
      intro e
      cases rest with
      | nil => simp at e
      | cons d r =>
        simp only [List.head?_cons, Option.some.injEq] at e
        exact h1 (by rw [e]; simp)
    simp [normalizeEol, h2, ih h1]

theorem normalizeEol_before_newline (seg rest : List Char) (h : '\n' ∉ seg) :
    normalizeEol (seg ++ '\n' :: rest) = dropCR seg ++ '\n' :: normalizeEol rest := by
  induction seg with
  | nil =>
    have e : ('\n' : Char) ≠ '\r' := by decide
    simp [normalizeEol, dropCR, e]
  | cons c s ih =>
    have h1 : '\n' ∉ s := fun e => h (List.mem_cons_of_mem _ e)
    cases s with
    | nil =>
      by_cases hc : c = '\r'
      · subst hc
        have e : ('\n' : Char) ≠ '\r' := by decide
        simp [normalizeEol, dropCR, e]
      · have e : ('\n' : Char) ≠ '\r' := by decide
        simp [normalizeEol, dropCR, hc, e]
    | cons d r =>
      have hd : d ≠ '\n' := fun e => h (by rw [← e]; simp)
      have ih2 := ih h1
      have e1 : normalizeEol (c :: d :: r ++ '\n' :: rest) =
          c :: normalizeEol (d :: r ++ '\n' :: rest) := by
        simp [normalizeEol, hd]
      have e2 : dropCR (c :: d :: r) = c :: dropCR (d :: r) := by
        unfold dropCR
        rw [List.getLast?_cons_cons]
        split
        · rw [List.dropLast_cons₂]
        · rfl
      rw [e1, e2, ih2]
      rfl

theorem splitLines_before_newline (s r : List Char) (h : '\n' ∉ s) :
    splitLines (s ++ '\n' :: r) = s :: splitLines r := by
  induction s with
  | nil => simp [splitLines]
  | cons c s ih =>
    have hc : c ≠ '\n' := fun e => h (by rw [e]; simp)
    have h1 : '\n' ∉ s := fun e => h (List.mem_cons_of_mem _ e)
    simp [splitLines, hc, ih h1]

theorem splitLines_no_newline (data : List Char) (h : '\n' ∉ data) (hne : data ≠ []) :
    splitLines data = [data] := by
  induction data with
  | nil => exact absurd rfl hne
  | cons c s ih =>
    have hc : c ≠ '\n' := fun e => h (by rw [e]; simp)
    have h1 : '\n' ∉ s := fun e => h (List.mem_cons_of_mem _ e)
    by_cases hs : s = []
    · subst hs
      simp [splitLines, hc]
    · simp [splitLines, hc, ih h1 hs]

theorem pageLines_nil : pageLines [] = [] := rfl

/-- A line of the page up to its `\n`: the bytes before it, less a final `\r`. -/
theorem pageLines_newline (seg rest : List Char) (h : '\n' ∉ seg) :
    pageLines (seg ++ '\n' :: rest) = dropCR seg :: pageLines rest := by
  unfold pageLines
  rw [normalizeEol_before_newline seg rest h]
  exact splitLines_before_newline _ _ (fun e => h (dropCR_subset seg _ e))

/-- The last line of a page that does not end in `\n`. -/
theorem pageLines_last (data : List Char) (h : '\n' ∉ data) (hne : data ≠ []) :
    pageLines data = [data] := by
  unfold pageLines
  rw [normalizeEol_no_newline data h]
  exact splitLines_no_newline data h hne

theorem readLinesFuel_eq_pageLines (fuel : Nat) :
    ∀ data : List Char, data.length ≤ fuel → LinesFit data →
      readLinesFuel fuel data = pageLines data := by
  induction fuel with
  | zero =>
    intro data h _
    have e : data = [] := List.length_eq_zero.mp (by omega)
    rw [e]; rfl
  | succ n ih =>
    intro data hlen hfit
    by_cases hne : data = []
    · rw [hne, readLinesFuel_nil]; rfl
    · by_cases hnl : '\n' ∈ data
      · obtain ⟨seg, rest, e, hseg⟩ := List.eq_append_cons_of_mem hnl
        subst e
        have hp := pageLines_newline seg rest hseg
        have hb : (dropCR seg).length + 2 ≤ defaultBufSize :=
          hfit (dropCR seg) (by rw [hp]; simp)
        have hs := dropCR_length seg
        have hr := readLine_newline seg rest hseg (by omega)
        have hfit2 : LinesFit rest := by
          intro l hl
          exact hfit l (by rw [hp]; exact List.mem_cons_of_mem _ hl)
        have hl2 : rest.length ≤ n := by
          simp only [List.length_append, List.length_cons] at hlen
          omega
        unfold readLinesFuel
        rw [hr, hp]
        simp only
        rw [ih rest hl2 hfit2]
      · have hp := pageLines_last data hnl hne
        have hb : data.length + 2 ≤ defaultBufSize := hfit data (by rw [hp]; simp)
        have hr := readLine_last data hnl hne (by omega)
        unfold readLinesFuel
        rw [hr, hp]
        simp only
        rw [readLinesFuel_nil]

/-- When every line of the page fits the buffer, the pieces that `ReadLine` delivers
are the lines of the page. -/
theorem readLines_eq_pageLines (data : List Char) (hfit : LinesFit data) :
    readLines data = pageLines data :=
  readLinesFuel_eq_pageLines data.length data (Nat.le_refl _) hfit

/-! ## C10: failed fetches -/

theorem tick_transport_error (off : Int) (d : Driver) (tk : Tick) (h : tk.resp = none) :
    tick off d tk = { d with localT := tk.fired } := by
  unfold tick
  rw [h]

theorem runTicks_transport_errors (off : Int) (ticks : List Tick) :
    ∀ d : Driver, (∀ tk ∈ ticks, tk.resp = none) →
      runTicks off d ticks =
        { d with localT := (ticks.map Tick.fired).getLastD d.localT } := by
  induction ticks with
  | nil => intro d _; rfl
  | cons tk rest ih =>
    intro d h
    have h1 := tick_transport_error off d tk (h tk (by simp))
    have h2 := ih (tick off d tk) (fun t ht => h t (by simp [ht]))
    have e : runTicks off d (tk :: rest) = runTicks off (tick off d tk) rest := rfl
    rw [e, h2, h1]
    cases rest with
    | nil => rfl
    | cons t2 r2 => simp [List.getLastD]

/-- C10 (counterexample): a response of status 500 is a fetch failure for the
specification, but `http.Get` returns it with `err == nil`: the iteration does the
rollover check (path time and cached midnight change) and appends a snapshot without
games. -/
theorem C10_status_500_is_not_skipped :
    fetchFailed tickStatus500 = true ∧
    driverS4.pathTime = 81000 ∧ driverS4.next = 82800 ∧ driverS4.out.length = 1 ∧
    (tick 3600 driverS4 tickStatus500).pathTime = 84600 ∧
    (tick 3600 driverS4 tickStatus500).next = 169200 ∧
    (tick 3600 driverS4 tickStatus500).out =
      driverS4.out ++ [{ file := 84600, tickLocal := 84600,
                         stats := { Time := 84601, Games := [] } }] := by
  decide

/-- C10 (amended): iterations whose fetch fails with a transport error (`http.Get`
returns `err != nil`) perform no append and no rollover check: after any run of such
iterations the writes, the path time, the handle and the cached next midnight are
unchanged and `local` is the time at which the last timer fired; the status of a
response has no influence on an iteration. -/
theorem C10_transport_error_only_refreshes_local (off : Int) (d : Driver)
    (ticks : List Tick) (tk : Tick) (s : Nat)
    (hfail : ∀ t ∈ ticks, t.resp = none) :
    (runTicks off d ticks).out = d.out ∧
    (runTicks off d ticks).pathTime = d.pathTime ∧
    (runTicks off d ticks).f = d.f ∧
    (runTicks off d ticks).next = d.next ∧
    (runTicks off d ticks).localT = (ticks.map Tick.fired).getLastD d.localT ∧
    tick off d { tk with status := s } = tick off d tk := by
  rw [runTicks_transport_errors off ticks d hfail]
  exact ⟨rfl, rfl, rfl, rfl, rfl, rfl⟩

/-- Witness of C10 (amended): two network errors in a row after the first iteration of
scenario S4, although the rollover is due. -/
theorem C10_transport_error_only_refreshes_local_witness :
    (∀ t ∈ [tickNetworkError, tickNetworkError], t.resp = none) ∧
    driverS4.next ≤ driverS4.localT ∧
    ((runTicks 3600 driverS4 [tickNetworkError, tickNetworkError]).out = driverS4.out ∧
     (runTicks 3600 driverS4 [tickNetworkError, tickNetworkError]).pathTime =
       driverS4.pathTime ∧
     (runTicks 3600 driverS4 [tickNetworkError, tickNetworkError]).f = driverS4.f ∧
     (runTicks 3600 driverS4 [tickNetworkError, tickNetworkError]).next = driverS4.next ∧
     (runTicks 3600 driverS4 [tickNetworkError, tickNetworkError]).localT =
       ([tickNetworkError, tickNetworkError].map Tick.fired).getLastD driverS4.localT ∧
     tick 3600 driverS4 { tickStatus500 with status := 200 } =
       tick 3600 driverS4 tickStatus500) :=
  ⟨by decide, by decide,
   C10_transport_error_only_refreshes_local 3600 driverS4
     [tickNetworkError, tickNetworkError] tickStatus500 200 (by decide)⟩

/-! ## C11: the interval in effect -/

/-- C11 (counterexample): the flag `9223372037` is a valid base-10 signed 64-bit
integer, but the product `interval * 1e9` handed to the timer wraps around: the
duration is negative, not 9223372037 seconds. -/
theorem C11_large_interval_wraps :
    IsInt64Text "9223372037".toList 9223372037 ∧
    interval "9223372037".toList = 9223372037 ∧
    timerNanos (interval "9223372037".toList) = -9223372036709551616 ∧
    timerNanos (interval "9223372037".toList) ≠ 9223372037 * 1000000000 :=
  ⟨(parseInt_eq_some_iff _ _).mp (by decide), by decide, by decide, by decide⟩

/-- C11 (amended): for every value of the flag that is not a valid base-10 signed
64-bit integer the interval is 3600 seconds and the timer is armed with `3600e9` ns;
for every valid value `v` the variable `interval` is `v`, and the timer is armed with
`v` seconds when `-9223372036 ≤ v ≤ 9223372036`. -/
theorem C11_interval_fallback (flagInterval : List Char) :
    (∀ v : Int, IsInt64Text flagInterval v →
      interval flagInterval = v ∧
      (-9223372036 ≤ v → v ≤ 9223372036 →
        timerNanos (interval flagInterval) = v * 1000000000)) ∧
    ((¬ ∃ v : Int, IsInt64Text flagInterval v) →
      interval flagInterval = 3600 ∧
      timerNanos (interval flagInterval) = 3600 * 1000000000) := by
  obtain ⟨h1, h2⟩ := interval_fallback flagInterval
  constructor
  · intro v hv
    have e := h1 v hv
    refine ⟨e, fun hlo hhi => ?_⟩
    rw [e]
    exact timerNanos_exact v hlo hhi
  · intro hno
    have e := h2 hno
    refine ⟨e, ?_⟩
    rw [e]
    exact timerNanos_exact 3600 (by decide) (by decide)

/-- Witness of C11 (amended): `60` is valid and arms the timer with 60 seconds; `abc`,
the empty string and `2^63` are not valid and give 3600 seconds. -/
theorem C11_interval_fallback_witness :
    (IsInt64Text "60".toList 60 ∧ interval "60".toList = 60 ∧
      timerNanos (interval "60".toList) = 60 * 1000000000) ∧
    ((¬ ∃ v : Int, IsInt64Text "abc".toList v) ∧ interval "abc".toList = 3600 ∧
      timerNanos (interval "abc".toList) = 3600 * 1000000000) ∧
    ((¬ ∃ v : Int, IsInt64Text [] v) ∧ interval [] = 3600) ∧
    ((¬ ∃ v : Int, IsInt64Text "9223372036854775808".toList v) ∧
      interval "9223372036854775808".toList = 3600) :=
  have h60 : IsInt64Text "60".toList 60 := (parseInt_eq_some_iff _ _).mp (by decide)
  have habc : ¬ ∃ v : Int, IsInt64Text "abc".toList v :=
    not_isInt64Text_of_parseInt_none _ (by decide)
  have hnil : ¬ ∃ v : Int, IsInt64Text [] v :=
    not_isInt64Text_of_parseInt_none _ (by decide)
  have hbig : ¬ ∃ v : Int, IsInt64Text "9223372036854775808".toList v :=
    not_isInt64Text_of_parseInt_none _ (by decide)
  ⟨⟨h60, ((C11_interval_fallback "60".toList).1 60 h60).1,
     ((C11_interval_fallback "60".toList).1 60 h60).2 (by decide) (by decide)⟩,
   ⟨habc, ((C11_interval_fallback "abc".toList).2 habc).1,
     ((C11_interval_fallback "abc".toList).2 habc).2⟩,
   ⟨hnil, ((C11_interval_fallback []).2 hnil).1⟩,
   ⟨hbig, ((C11_interval_fallback "9223372036854775808".toList).2 hbig).1⟩⟩

/-! ## C1: the clean row of a page -/

/-- C1 (amended): when the page consists of four lines, none longer than the buffer of
the line reader allows (4094 bytes), that carry the row marker, the current span, the
peak span and the link, each marker being the first of its kind on its line, the games
list is exactly the one record `{Name, Url, Current, Peak}` of that row. -/
theorem C1_clean_row_on_four_lines
    (data l0 a1 t1 b1 a2 t2 b2 a3 url name b3 : List Char) (c p : Int)
    (hlines : pageLines data =
      [l0, a1 ++ spanStart ++ t1 ++ spanEnd ++ b1,
       a2 ++ spanStart ++ t2 ++ spanEnd ++ b2,
       a3 ++ nameStart ++ url ++ hrefEnd ++ name ++ nameEnd ++ b3])
    (hfit : LinesFit data)
    (h0 : contains l0 rowStart = true)
    (h1 : contains a1 spanStart = false) (hc : atoi (stripCommas t1) = some c)
    (h2 : contains a2 spanStart = false) (hp : atoi (stripCommas t2) = some p)
    (h3 : contains a3 nameStart = false)
    (hu : contains url hrefEnd = false) (hn : contains name nameEnd = false) :
    pageGames data = [{ Name := name, Url := url, Current := c, Peak := p }] := by
  unfold pageGames
  rw [readLines_eq_pageLines data hfit, hlines]
  exact games_clean_row l0 a1 t1 b1 a2 t2 b2 a3 url name b3 c p h0 h1 hc h2 hp h3 hu hn

/-- Witness of C1 (amended): the page of scenario S1 with the row marker on a line of
its own yields exactly `{Foo Game, /app/42/FooGame/, 1234, 5000}`. -/
theorem C1_clean_row_on_four_lines_witness :
    (pageLines pageS1Split =
      ["<tr class=\"player_count_row\" style=\"...\"> ... ".toList,
       [] ++ spanStart ++ "1,234".toList ++ spanEnd ++ [],
       [] ++ spanStart ++ "5,000".toList ++ spanEnd ++ [],
       [] ++ nameStart ++ "/app/42/FooGame/".toList ++ hrefEnd ++ "Foo Game".toList ++
         nameEnd ++ []] ∧
     LinesFit pageS1Split ∧
     atoi (stripCommas "1,234".toList) = some 1234 ∧
     atoi (stripCommas "5,000".toList) = some 5000) ∧
    pageGames pageS1Split = [fooGame] :=
  ⟨⟨by decide, by decide, by decide, by decide⟩,
   C1_clean_row_on_four_lines pageS1Split
     "<tr class=\"player_count_row\" style=\"...\"> ... ".toList
     [] "1,234".toList [] [] "5,000".toList [] [] "/app/42/FooGame/".toList
     "Foo Game".toList [] 1234 5000
     (by decide) (by decide) (by decide) (by decide) (by decide) (by decide) (by decide)
     (by decide) (by decide) (by decide)⟩

/-! ## C13: the happy path of a page -/

/-- C13 (amended): on a page of four lines, none longer than the buffer of the line
reader allows (4094 bytes), for counts `c` and `p` below `2^63` written in decimal with
thousands-separator commas, a url without `">` and a name without `</a>`, the lines
(row marker; first span of the line encloses `c`; first span of the line encloses `p`;
first link of the line carries url and name) yield exactly the record
`{Name, Url, Current := c, Peak := p}`, and the machine ends in state 0. -/
theorem C13_happy_path (data l0 a1 b1 a2 b2 a3 b3 url name : List Char) (c p : Nat)
    (hlines : pageLines data =
      [l0, a1 ++ spanStart ++ withCommas c ++ spanEnd ++ b1,
       a2 ++ spanStart ++ withCommas p ++ spanEnd ++ b2,
       a3 ++ nameStart ++ url ++ hrefEnd ++ name ++ nameEnd ++ b3])
    (hfit : LinesFit data)
    (hc : c < 2 ^ 63) (hp : p < 2 ^ 63)
    (h0 : contains l0 rowStart = true)
    (h1 : contains a1 spanStart = false) (h2 : contains a2 spanStart = false)
    (h3 : contains a3 nameStart = false)
    (hu : contains url hrefEnd = false) (hn : contains name nameEnd = false) :
    pageGames data =
      [{ Name := name, Url := url, Current := (c : Int), Peak := (p : Int) }] ∧
    (pageScan data).state = 0 := by
  unfold pageGames pageScan
  rw [readLines_eq_pageLines data hfit, hlines]
  exact games_happy_path l0 a1 b1 a2 b2 a3 b3 url name c p hc hp h0 h1 h2 h3 hu hn

/-- Witness of C13 (amended): the page of the clean row of scenario S1, counts 1234 and
5000. -/
theorem C13_happy_path_witness :
    (withCommas 1234 = "1,234".toList ∧ withCommas 5000 = "5,000".toList ∧
     LinesFit pageS1Split ∧ (1234 : Nat) < 2 ^ 63 ∧ (5000 : Nat) < 2 ^ 63) ∧
    (pageGames pageS1Split =
      [{ Name := "Foo Game".toList, Url := "/app/42/FooGame/".toList,
         Current := ((1234 : Nat) : Int), Peak := ((5000 : Nat) : Int) }] ∧
     (pageScan pageS1Split).state = 0) :=
  have e1 : withCommas 1234 = "1,234".toList := by
    simp [withCommas, decimal, groupThousands, digitByte]
  have e2 : withCommas 5000 = "5,000".toList := by
    simp [withCommas, decimal, groupThousands, digitByte]
  ⟨⟨e1, e2, by decide, by decide, by decide⟩,
   C13_happy_path pageS1Split "<tr class=\"player_count_row\" style=\"...\"> ... ".toList
     [] [] [] [] [] [] "/app/42/FooGame/".toList "Foo Game".toList 1234 5000
     (by rw [e1, e2]; decide) (by decide) (by decide) (by decide) (by decide) (by decide)
     (by decide) (by decide) (by decide) (by decide)⟩

/-! ## C3: a link line without href terminator in a page -/

/-- C3 (amended): when no line of the page is longer than the buffer of the line reader
allows (4094 bytes) and the machine is in state 3 after the lines `pre`, a next line
whose first link marker is followed by no `">` appends exactly one record, carrying the
`Current` and `Peak` of the earlier spans, and returns the machine to state 0; the line
after it, having no row marker, appends nothing. -/
theorem C3_unterminated_href_appends_record (data : List Char) (pre : List (List Char))
    (a rest later : List Char)
    (hlines : pageLines data = pre ++ [a ++ nameStart ++ rest, later])
    (hfit : LinesFit data)
    (hs : (scan pre).state = 3)
    (ha : contains a nameStart = false) (hr : contains rest hrefEnd = false)
    (hl : contains later rowStart = false) :
    (scan (pre ++ [a ++ nameStart ++ rest])).state = 0 ∧
    (∃ g : GameInfo,
      (scan (pre ++ [a ++ nameStart ++ rest])).games = (scan pre).games ++ [g] ∧
      g.Current = (scan pre).gi.Current ∧ g.Peak = (scan pre).gi.Peak) ∧
    pageScan data = scan (pre ++ [a ++ nameStart ++ rest]) := by
  have h := parseLine_unterminated_href (scan pre) a rest later hs ha hr hl
  have e1 : scan (pre ++ [a ++ nameStart ++ rest]) =
      parseLine (scan pre) (a ++ nameStart ++ rest) := by
    unfold scan
    rw [scanFrom_append]
    rfl
  have e2 : pageScan data =
      parseLine (parseLine (scan pre) (a ++ nameStart ++ rest)) later := by
    unfold pageScan
    rw [readLines_eq_pageLines data hfit, hlines]
    unfold scan
    rw [scanFrom_append]
    rfl
  rw [e1, e2]
  exact ⟨h.1, h.2.1, h.2.2⟩

/-- Witness of C3 (amended): the page of scenario S3, with `\r\n` line ends. -/
theorem C3_unterminated_href_appends_record_witness :
    (pageLines pageS3 = linesS3Head ++ [[] ++ nameStart ++ "/app/7/Bar".toList, lineS3Baz] ∧
     LinesFit pageS3 ∧ (scan linesS3Head).state = 3) ∧
    ((scan (linesS3Head ++ [[] ++ nameStart ++ "/app/7/Bar".toList])).state = 0 ∧
     (∃ g : GameInfo,
       (scan (linesS3Head ++ [[] ++ nameStart ++ "/app/7/Bar".toList])).games =
         (scan linesS3Head).games ++ [g] ∧
       g.Current = (scan linesS3Head).gi.Current ∧ g.Peak = (scan linesS3Head).gi.Peak) ∧
     pageScan pageS3 = scan (linesS3Head ++ [[] ++ nameStart ++ "/app/7/Bar".toList])) :=
  ⟨⟨by decide, by decide, by decide⟩,
   C3_unterminated_href_appends_record pageS3 linesS3Head [] "/app/7/Bar".toList lineS3Baz
     (by decide) (by decide) (by decide) (by decide) (by decide) (by decide)⟩

/-! ## C8: signs of the counts of a page -/

/-- C8 (amended): when no line of the page is longer than the buffer of the line reader
allows (4094 bytes) and on no line the span text handed to the integer parser begins
with a minus sign, every record of the games list has `Current ≥ 0` and `Peak ≥ 0`. -/
theorem C8_counts_nonneg_without_minus (data : List Char) (hfit : LinesFit data)
    (ht : ∀ l ∈ pageLines data, (spanText l).bind List.head? ≠ some '-')
    (g : GameInfo) (hg : g ∈ pageGames data) : 0 ≤ g.Current ∧ 0 ≤ g.Peak := by
  unfold pageGames at hg
  rw [readLines_eq_pageLines data hfit] at hg
  exact games_nonneg_without_minus (pageLines data) ht g hg

set_option maxRecDepth 100000 in
/-- Witness of C8 (amended): the page of the clean row of scenario S1. -/
theorem C8_counts_nonneg_without_minus_witness :
    (LinesFit pageS1Split ∧
     (∀ l ∈ pageLines pageS1Split, (spanText l).bind List.head? ≠ some '-') ∧
     fooGame ∈ pageGames pageS1Split) ∧
    (0 ≤ fooGame.Current ∧ 0 ≤ fooGame.Peak) :=
  ⟨⟨by decide, by decide, by decide⟩,
   C8_counts_nonneg_without_minus pageS1Split (by decide) (by decide) fooGame (by decide)⟩

/-! ## Lines longer than the buffer are handed over in pieces -/

theorem readLines_newline (seg rest : List Char) (h : '\n' ∉ seg)
    (hlen : seg.length < defaultBufSize) :
    readLines (seg ++ '\n' :: rest) = dropCR seg :: readLines rest :=
  readLines_step _ _ _ (readLine_newline seg rest h hlen)

theorem readLines_last (data : List Char) (h : '\n' ∉ data) (hne : data ≠ [])
    (hlen : data.length < defaultBufSize) : readLines data = [data] := by
  rw [readLines_step _ _ _ (readLine_last data h hne hlen)]
  rfl

/-- A line that fills the buffer before its end is cut there. -/
theorem readLines_full (x y : List Char) (hx : x.length = defaultBufSize) (h : '\n' ∉ x)
    (hcr : x.getLast? ≠ some '\r') : readLines (x ++ y) = x :: readLines y :=
  readLines_step _ _ _ (readLine_full x y hx h hcr)

theorem padding_no_char (c : Char) (hc : c ≠ ' ') : c ∉ padding := by
  intro h
  exact hc (List.eq_of_mem_replicate h)

theorem lineLongPeak_piece :
    lineLongPeak.length = defaultBufSize ∧ '\n' ∉ lineLongPeak ∧
      lineLongPeak.getLast? ≠ some '\r' := by
  have e : lineLongPeak = padding ++ (spanStart ++ "5,000".toList ++ spanEnd) := by
    simp [lineLongPeak, List.append_assoc]
  have hl : (spanStart ++ "5,000".toList ++ spanEnd).length = 41 := by decide
  refine ⟨?_, ?_, ?_⟩
  · rw [e, List.length_append, hl, padding, List.length_replicate]
    rfl
  · rw [e, List.mem_append]
    rintro (h | h)
    · exact padding_no_char '\n' (by decide) h
    · exact absurd h (by decide)
  · rw [e, List.getLast?_append_of_ne_nil _ (by decide)]
    decide

/-! ## C17: records and lines of a page -/

/-- C17 (counterexample): a page of three lines whose third line is longer than the
buffer of the line reader: the line is handed to the `switch` in two pieces, the first
with the peak span and the second with the link, and the page yields one record, more
than a quarter of its three lines. -/
theorem C17_long_line_counts_as_two :
    pageLines pageLongLine = [lineRow, lineCurrent, lineLongPeak ++ lineLink] ∧
    readLines pageLongLine = [lineRow, lineCurrent, lineLongPeak, lineLink] ∧
    pageGames pageLongLine = [fooGame] ∧
    ¬ ((pageGames pageLongLine).length ≤ (pageLines pageLongLine).length / 4) := by
  obtain ⟨hx, hnl, hcr⟩ := lineLongPeak_piece
  have hnl2 : '\n' ∉ lineLongPeak ++ lineLink := by
    rw [List.mem_append]
    rintro (h | h)
    · exact hnl h
    · exact absurd h (by decide)
  have hne : lineLongPeak ++ lineLink ≠ [] := by
    intro e
    have : lineLink = [] := (List.append_eq_nil.mp e).2
    exact absurd this (by decide)
  have hp : pageLines pageLongLine = [lineRow, lineCurrent, lineLongPeak ++ lineLink] := by
    unfold pageLongLine
    rw [pageLines_newline lineRow _ (by decide), pageLines_newline lineCurrent _ (by decide),
      pageLines_last _ hnl2 hne]
    have e1 : dropCR lineRow = lineRow := by decide
    have e2 : dropCR lineCurrent = lineCurrent := by decide
    rw [e1, e2]
  have hr : readLines pageLongLine = [lineRow, lineCurrent, lineLongPeak, lineLink] := by
    unfold pageLongLine
    rw [readLines_newline lineRow _ (by decide) (by decide),
      readLines_newline lineCurrent _ (by decide) (by decide),
      readLines_full lineLongPeak lineLink hx hnl hcr,
      readLines_last lineLink (by decide) (by decide) (by decide)]
    have e1 : dropCR lineRow = lineRow := by decide
    have e2 : dropCR lineCurrent = lineCurrent := by decide
    rw [e1, e2]
  have hg : pageGames pageLongLine = [fooGame] := by
    unfold pageGames
    rw [hr]
    have h := games_clean_row lineRow [] "1,234".toList [] padding "5,000".toList [] []
      "/app/42/FooGame/".toList "Foo Game".toList [] 1234 5000 (by decide) (by decide)
      (by decide) (contains_false_of_head_not_mem '<' _ padding (padding_no_char '<' (by decide)))
      (by decide) (by decide) (by decide) (by decide)
    simp only [List.append_nil, List.nil_append] at h
    exact h
  refine ⟨hp, hr, hg, ?_⟩
  rw [hg, hp]
  decide

/-- C17 (amended): when no line of the page is longer than the buffer of the line
reader allows (4094 bytes), the number of records is at most the number of lines
containing the row marker, at most the number of lines containing the link marker, and
at most a quarter of the number of lines. -/
theorem C17_record_count_bounds (data : List Char) (hfit : LinesFit data) :
    (pageGames data).length ≤ linesWith rowStart (pageLines data) ∧
    (pageGames data).length ≤ linesWith nameStart (pageLines data) ∧
    (pageGames data).length ≤ (pageLines data).length / 4 := by
  unfold pageGames
  rw [readLines_eq_pageLines data hfit]
  exact games_count_bounds (pageLines data)

set_option maxRecDepth 100000 in
/-- Witness of C17 (amended): the page of the clean row of scenario S1: one record,
one line with the row marker, one with the link marker, four lines. -/
theorem C17_record_count_bounds_witness :
    LinesFit pageS1Split ∧
    ((pageGames pageS1Split).length ≤ linesWith rowStart (pageLines pageS1Split) ∧
     (pageGames pageS1Split).length ≤ linesWith nameStart (pageLines pageS1Split) ∧
     (pageGames pageS1Split).length ≤ (pageLines pageS1Split).length / 4) ∧
    (pageGames pageS1Split).length = 1 ∧ (pageLines pageS1Split).length = 4 :=
  ⟨by decide, C17_record_count_bounds pageS1Split (by decide), by decide, by decide⟩

/-! ## C15: the first occurrence of a marker on a line of a page -/

theorem lineLongCurrent_piece :
    lineLongCurrent.length = defaultBufSize ∧ '\n' ∉ lineLongCurrent ∧
      lineLongCurrent.getLast? ≠ some '\r' := by
  have e : lineLongCurrent = padding ++ (spanStart ++ "1,234".toList ++ spanEnd) := by
    simp [lineLongCurrent, List.append_assoc]
  have hl : (spanStart ++ "1,234".toList ++ spanEnd).length = 41 := by decide
  refine ⟨?_, ?_, ?_⟩
  · rw [e, List.length_append, hl, padding, List.length_replicate]
    rfl
  · rw [e, List.mem_append]
    rintro (h | h)
    · exact padding_no_char '\n' (by decide) h
    · exact absurd h (by decide)
  · rw [e, List.getLast?_append_of_ne_nil _ (by decide)]
    decide

set_option maxRecDepth 100000 in
/-- C15 (counterexample): in state 3, on a line with two link markers of which the
first has no `">` of its own, the url runs up to the `">` of the second link and the
name is that of the second link, `B`; and in state 1, a line of 4134 bytes with two
complete spans is handed over in two pieces, so that the state advances by two and both
spans are assigned (`Current = 1234`, `Peak = 77`). -/
theorem C15_second_marker_is_used :
    (pageLines pageOpenHrefThenLink = linesS3Head ++ [lineOpenHrefThenLink] ∧
     (scan linesS3Head).state = 3 ∧
     pageGames pageOpenHrefThenLink =
       [{ Name := "B".toList,
          Url := "/app/1/A <a class=\"gameLink\" href=\"/app/2/B/".toList,
          Current := 1234, Peak := 5000 }]) ∧
    (pageLines pageLongTwoSpans = [lineRow, lineLongCurrent ++ lineSpan77] ∧
     (scan [lineRow]).state = 1 ∧
     readLines pageLongTwoSpans = [lineRow, lineLongCurrent, lineSpan77] ∧
     pageScan pageLongTwoSpans =
       { state := 3, gi := { Name := [], Url := [], Current := 1234, Peak := 77 },
         games := [] }) := by
  constructor
  · decide
  · obtain ⟨hx, hnl, hcr⟩ := lineLongCurrent_piece
    have hnl2 : '\n' ∉ lineLongCurrent ++ lineSpan77 := by
      rw [List.mem_append]
      rintro (h | h)
      · exact hnl h
      · exact absurd h (by decide)
    have hne : lineLongCurrent ++ lineSpan77 ≠ [] := by
      intro e
      have : lineSpan77 = [] := (List.append_eq_nil.mp e).2
      exact absurd this (by decide)
    have e1 : dropCR lineRow = lineRow := by decide
    have hp : pageLines pageLongTwoSpans = [lineRow, lineLongCurrent ++ lineSpan77] := by
      unfold pageLongTwoSpans
      rw [pageLines_newline lineRow _ (by decide), pageLines_last _ hnl2 hne, e1]
    have hr : readLines pageLongTwoSpans = [lineRow, lineLongCurrent, lineSpan77] := by
      unfold pageLongTwoSpans
      rw [readLines_newline lineRow _ (by decide) (by decide),
        readLines_full lineLongCurrent lineSpan77 hx hnl hcr,
        readLines_last lineSpan77 (by decide) (by decide) (by decide), e1]
    refine ⟨hp, by decide, hr, ?_⟩
    unfold pageScan
    rw [hr]
    have s1 : scan [lineRow, lineLongCurrent, lineSpan77] =
        parseLine (parseLine (parseLine Scan.init lineRow) lineLongCurrent) lineSpan77 := by
      simp only [scan, scanFrom, List.foldl_cons, List.foldl_nil]
    have h1 : parseLine Scan.init lineRow = { Scan.init with state := 1 } :=
      parseLine_row Scan.init lineRow rfl (by decide)
    have h2 := parseLine_span { Scan.init with state := 1 } padding "1,234".toList []
      1234 (Or.inl rfl)
      (contains_false_of_head_not_mem '<' _ padding (padding_no_char '<' (by decide)))
      (by decide)
    have e2 : padding ++ (spanStart ++ ("1,234".toList ++ (spanEnd ++ []))) =
        lineLongCurrent := by
      simp [lineLongCurrent, List.append_assoc]
    rw [e2] at h2
    rw [s1, h1, h2]
    decide

/-- C15 (amended): on a line no longer than the buffer of the line reader allows (4094
bytes, as every line of the page), in state 1 or 2, two complete spans advance the state
by one and the one field assigned is the integer of the first span (no field if that
text is no integer); in state 3, two link markers of which the first link is complete
(its `">` and `</a>` stand before the second marker) append the record with `Url` and
`Name` of the first link. -/
theorem C15_first_occurrence_decides (data data3 : List Char) (pre pre3 : List (List Char))
    (a t1 m t2 b a3 url1 name1 m3 rest3 : List Char)
    (hlines : pageLines data =
      pre ++ [a ++ spanStart ++ t1 ++ spanEnd ++ m ++ spanStart ++ t2 ++ spanEnd ++ b])
    (hfit : LinesFit data)
    (hp : (scan pre).state = 1 ∨ (scan pre).state = 2)
    (ha : contains a spanStart = false) (ht1 : contains t1 spanEnd = false)
    (hlines3 : pageLines data3 =
      pre3 ++ [a3 ++ nameStart ++ url1 ++ hrefEnd ++ name1 ++ nameEnd ++ m3 ++
        nameStart ++ rest3])
    (hfit3 : LinesFit data3)
    (hq : (scan pre3).state = 3) (ha3 : contains a3 nameStart = false)
    (hu : contains url1 hrefEnd = false) (hn : contains name1 nameEnd = false) :
    pageScan data =
      { scan pre with
        state := (scan pre).state + 1,
        gi := match atoi (stripCommas t1) with
          | some v => if (scan pre).state = 1 then { (scan pre).gi with Current := v }
                      else { (scan pre).gi with Peak := v }
          | none => (scan pre).gi } ∧
    pageScan data3 =
      { state := 0, gi := { (scan pre3).gi with Url := url1, Name := name1 },
        games := (scan pre3).games ++ [{ (scan pre3).gi with Url := url1, Name := name1 }] } := by
  have h := parseLine_first_occurrence (scan pre) (scan pre3) a t1 m t2 b a3 url1 name1 m3
    rest3 hp ha ht1 hq ha3 hu hn
  constructor
  · unfold pageScan
    rw [readLines_eq_pageLines data hfit, hlines]
    unfold scan
    rw [scanFrom_append]
    exact h.1
  · unfold pageScan
    rw [readLines_eq_pageLines data3 hfit3, hlines3]
    unfold scan
    rw [scanFrom_append]
    exact h.2

set_option maxRecDepth 100000 in
/-- Witness of C15 (amended): in state 1 the line with the spans `1,234` and `77`
assigns `Current = 1234`; in state 3 the line with the links `A` and `B` appends the
record of `A`. -/
theorem C15_first_occurrence_decides_witness :
    (LinesFit pageTwoSpans ∧ LinesFit pageTwoLinks ∧
     ((scan [lineRow]).state = 1 ∨ (scan [lineRow]).state = 2) ∧
     (scan linesS3Head).state = 3) ∧
    pageScan pageTwoSpans =
      { state := 2, gi := { Name := [], Url := [], Current := 1234, Peak := 0 },
        games := [] } ∧
    pageScan pageTwoLinks =
      { state := 0,
        gi := { Name := "A".toList, Url := "/app/1/A/".toList, Current := 1234, Peak := 5000 },
        games := [{ Name := "A".toList, Url := "/app/1/A/".toList,
                    Current := 1234, Peak := 5000 }] } :=
  have h := C15_first_occurrence_decides pageTwoSpans pageTwoLinks [lineRow] linesS3Head
    [] "1,234".toList " ".toList "77".toList [] [] "/app/1/A/".toList "A".toList []
    "/app/2/B/\">B</a>".toList
    (by decide) (by decide) (by decide) (by decide) (by decide)
    (by decide) (by decide) (by decide) (by decide) (by decide) (by decide)
  ⟨⟨by decide, by decide, by decide, by decide⟩, h.1, h.2⟩

/-! ## A name longer than the buffer -/

theorem contains_append_of_head_not_mem (h : Char) (r s t : List Char) (hs : h ∉ s) :
    contains (s ++ t) (h :: r) = contains t (h :: r) := by
  induction s with
  | nil => rfl
  | cons x s ih =>
    have hx : h ≠ x := fun e => hs (by simp [e])
    have hs2 : h ∉ s := fun e => hs (by simp [e])
    have ih2 := ih hs2
    unfold contains at ih2 ⊢
    rw [List.cons_append, index_cons]
    have hp : (h :: r).isPrefixOf (x :: (s ++ t)) = false := by
      simp [List.isPrefixOf, hx]
    rw [hp]
    simp only [Bool.false_eq_true, if_false, Option.isSome_map']
    exact ih2

/-- On the four-line page of the clean row with a name of 5000 bytes the link line is
handed to the `switch` in pieces of 4096 and 952 bytes: the first piece holds the link
marker and the url but no `</a>`, and the record is appended with an empty name. -/
theorem pageGames_long_name :
    pageLines pageLongName = [lineRow, lineCurrent, linePeak, lineLongName] ∧
    (readLines pageLongName).map List.length = [41, 41, 41, 4096, 952] ∧
    pageGames pageLongName =
      [{ Name := [], Url := "/app/42/FooGame/".toList, Current := 1234, Peak := 5000 }] := by
  have hsplit : lineLongName =
      (nameStart ++ "/app/42/FooGame/".toList ++ hrefEnd ++ List.replicate 4052 'x') ++
        (List.replicate 948 'x' ++ nameEnd) := by
    have e : List.replicate 5000 'x' = List.replicate 4052 'x' ++ List.replicate 948 'x' := by
      rw [← List.replicate_add]
    unfold lineLongName
    rw [e]
    simp only [List.append_assoc]
  have hxx (c : Char) (hc : c ≠ 'x') (n : Nat) : c ∉ List.replicate n 'x' :=
    fun h => hc (List.eq_of_mem_replicate h)
  have hl0 : (nameStart ++ "/app/42/FooGame/".toList ++ hrefEnd).length = 44 := by decide
  have hx : (nameStart ++ "/app/42/FooGame/".toList ++ hrefEnd ++
      List.replicate 4052 'x').length = defaultBufSize := by
    rw [List.length_append, hl0, List.length_replicate]
    rfl
  have hnlx : '\n' ∉ nameStart ++ "/app/42/FooGame/".toList ++ hrefEnd ++
      List.replicate 4052 'x' := by
    rw [List.mem_append]
    rintro (h | h)
    · exact absurd h (by decide)
    · exact hxx '\n' (by decide) _ h
  have hcr : (nameStart ++ "/app/42/FooGame/".toList ++ hrefEnd ++
      List.replicate 4052 'x').getLast? ≠ some '\r' := by
    have e : List.replicate 4052 'x' = List.replicate 4051 'x' ++ ['x'] := by
      rw [show (4052 : Nat) = 4051 + 1 from rfl, List.replicate_add]
      rfl
    rw [e, ← List.append_assoc, List.getLast?_append_of_ne_nil _ (by simp)]
    decide
  have hnly : '\n' ∉ List.replicate 948 'x' ++ nameEnd := by
    rw [List.mem_append]
    rintro (h | h)
    · exact hxx '\n' (by decide) _ h
    · exact absurd h (by decide)
  have hney : List.replicate 948 'x' ++ nameEnd ≠ [] := by
    intro e
    exact absurd (List.append_eq_nil.mp e).2 (by decide)
  have hly : (List.replicate 948 'x' ++ nameEnd).length = 952 := by
    rw [List.length_append, List.length_replicate]
    rfl
  have hnl : '\n' ∉ lineLongName := by
    rw [hsplit, List.mem_append]
    rintro (h | h)
    · exact hnlx h
    · exact hnly h
  have hne : lineLongName ≠ [] := by
    rw [hsplit]
    intro e
    exact hney (List.append_eq_nil.mp e).2
  have e1 : dropCR lineRow = lineRow := by decide
  have e2 : dropCR lineCurrent = lineCurrent := by decide
  have e3 : dropCR linePeak = linePeak := by decide
  have hp : pageLines pageLongName = [lineRow, lineCurrent, linePeak, lineLongName] := by
    unfold pageLongName
    rw [pageLines_newline lineRow _ (by decide), pageLines_newline lineCurrent _ (by decide),
      pageLines_newline linePeak _ (by decide), pageLines_last _ hnl hne, e1, e2, e3]
  have hr : readLines pageLongName =
      [lineRow, lineCurrent, linePeak,
       nameStart ++ "/app/42/FooGame/".toList ++ hrefEnd ++ List.replicate 4052 'x',
       List.replicate 948 'x' ++ nameEnd] := by
    unfold pageLongName
    rw [readLines_newline lineRow _ (by decide) (by decide),
      readLines_newline lineCurrent _ (by decide) (by decide),
      readLines_newline linePeak _ (by decide) (by decide), hsplit,
      readLines_full _ _ hx hnlx hcr,
      readLines_last _ hnly hney (by rw [hly]; decide), e1, e2, e3]
  refine ⟨hp, ?_, ?_⟩
  · rw [hr]
    simp only [List.map_cons, List.map_nil, hx, hly]
    decide
  · unfold pageGames
    rw [hr]
    have s0 : scan [lineRow, lineCurrent, linePeak] =
        { state := 3, gi := { Name := [], Url := [], Current := 1234, Peak := 5000 },
          games := [] } := by decide
    have s1 := parseLine_open_anchor
      { state := 3, gi := { Name := [], Url := [], Current := 1234, Peak := 5000 },
        games := [] } [] "/app/42/FooGame/".toList (List.replicate 4052 'x') rfl (by decide)
      (by decide) (contains_false_of_head_not_mem '<' _ _ (hxx '<' (by decide) _))
    have s2 : contains (List.replicate 948 'x' ++ nameEnd) rowStart = false := by
      have e := contains_append_of_head_not_mem '<' "tr class=\"player_count_row\" style=\"".toList
        (List.replicate 948 'x') nameEnd (hxx '<' (by decide) _)
      have e4 : rowStart = '<' :: "tr class=\"player_count_row\" style=\"".toList := by decide
      rw [e4, e]
      decide
    have e5 : [] ++ (nameStart ++ ("/app/42/FooGame/".toList ++ (hrefEnd ++
        List.replicate 4052 'x'))) =
        nameStart ++ "/app/42/FooGame/".toList ++ hrefEnd ++ List.replicate 4052 'x' := by
      simp only [List.nil_append, List.append_assoc]
    rw [e5] at s1
    have e6 : games [lineRow, lineCurrent, linePeak,
        nameStart ++ "/app/42/FooGame/".toList ++ hrefEnd ++ List.replicate 4052 'x',
        List.replicate 948 'x' ++ nameEnd] =
        (parseLine (parseLine (scan [lineRow, lineCurrent, linePeak])
          (nameStart ++ "/app/42/FooGame/".toList ++ hrefEnd ++ List.replicate 4052 'x'))
          (List.replicate 948 'x' ++ nameEnd)).games := by
      simp only [games, scan, scanFrom, List.foldl_cons, List.foldl_nil]
    rw [e6, s0, s1, parseLine_seek _ _ rfl s2]
    rfl

end SteamStats
